import Mathlib

/-!
# fMRI_Stats: per-voxel temporal statistics (`fmri_2024.cpp`)

A shallow embedding of the statistics reducers (`getMean`, `getSD`), the
time-series printers, the dimension set-up of `main`, the statistic dispatch
loops and the output conversion/write loop, followed by theorems about them.

Modelling conventions

* C `int` values are mathematical integers (`Int`) in the reducers and the
  loops.  Where the value of an `int` expression is itself the subject of a
  statement (the product `xmax * ymax * zmax` of `main`, the offsets
  `z + t * NumberVoxels` of the bounds-checked reducers) every operation is
  reduced to 32 bits, two's complement (`wrapInt32`), which is what the
  compiled program holds after an overflow.
* A pointer `T a` is the function `Int → S` giving the object found at each
  index; a pointer to pointers (`float **`) is a function of two indices,
  row first, exactly as `p[i][j]` is written in the source.
* `float` arithmetic is not fixed in the embedding of the code: every function
  takes the arithmetic as a `FloatOps` record, so each theorem proved for an
  arbitrary record holds for IEEE-754 binary32 with any rounding as well as for
  exact arithmetic.  Concrete evaluations use the instance `ieee32` below, in
  which every float operation is rounded to binary32 on its own (no wider
  intermediate precision, no fused multiply-add).
* The part of `main` that parses the options, allocates and loads the arrays
  is not in the source file; what it produces is an argument (`Config`) of the
  functions that embed the dispatch and output code.
* Claims about the numbers returned (order, equality with a real quantity) are
  stated and proved on `ieee32`, from the rounding properties of the model
  proved in the section on rounding.
* `getMeanChecked` and `getSDChecked` are the reducers with every read checked
  against the length of the buffer, the offsets being computed on 32-bit
  `int`.
-/

namespace FMRI

set_option maxRecDepth 100000

/-! ## Float arithmetic and sample encodings -/

/-- The operations on C `float` that the program uses. -/
structure FloatOps (F : Type) where
  /-- Conversion of an integer value to `float`, as in `float f = 0` or `f / counter`. -/
  ofInt : Int → F
  /-- Float addition. -/
  add : F → F → F
  /-- Float subtraction. -/
  sub : F → F → F
  /-- Float multiplication. -/
  mul : F → F → F
  /-- Float division. -/
  div : F → F → F
  /-- Square root, the `(float)(sqrt(x))` of the source. -/
  sqrt : F → F
  /-- The test `x != 0` on a float. -/
  nonzero : F → Bool
  /-- The conversion `(int)x`. -/
  toInt : F → Int
  /-- The conversion `(unsigned char)x`. -/
  toUChar : F → Int
  /-- The conversion `(short int)x`. -/
  toShort : F → Int
  /-- The conversion `(unsigned short int)x`. -/
  toUShort : F → Int

/-- What the templates `getMean<T>`, `getSD<T>`, `printTS<T>` need of the element
type of `T`: the test `a[i] != 0`, the widening to `float` and the cast `(int)(a[i])`. -/
structure Encoding (F : Type) (S : Type) where
  /-- The test `s != 0`. -/
  nonzero : S → Bool
  /-- The conversion `(float)s` (also the implicit one in `s - f_mean`). -/
  toFloat : S → F
  /-- The conversion `(int)s`. -/
  toInt : S → Int

/-- Element type of `unsigned char *`, `short int *` and `unsigned short int *` buffers:
the sample is an integer, compared with the integer 0 and widened by an int-to-float
conversion. -/
def intEncoding {F : Type} (ops : FloatOps F) : Encoding F Int where
  nonzero := fun s => s != 0
  toFloat := ops.ofInt
  toInt := fun s => s

/-- Element type of `float *` buffers. -/
def floatEncoding {F : Type} (ops : FloatOps F) : Encoding F F where
  nonzero := ops.nonzero
  toFloat := fun s => s
  toInt := ops.toInt

/-! ## Loops -/

/-- The loop `for (int t = 0; t < bound; t++) st = body(t, st);` whose body does not
change `bound`: it runs for `t = 0, 1, ..., bound - 1`, and not at all when `bound ≤ 0`. -/
def forLoop {σ : Type} (bound : Int) (body : Int → σ → σ) (init : σ) : σ :=
  (List.range bound.toNat).foldl (fun st (t : Nat) => body (t : Int) st) init

/-! ## The reducers -/

/-- Lines 71-79 (and 90-99): the guarded accumulation pass shared by `getMean` and
`getSD`.  Returns the pair `(f_mean, counter)` after the loop. -/
def meanPass {F S : Type} (ops : FloatOps F) (enc : Encoding F S) (a : Int → S)
    (NumberVoxels : Int) (size_Dim : Int → Int) (Num_of_Dims : Int) (z : Int) : F × Int :=
  if enc.nonzero (a z) then
    forLoop (size_Dim (Num_of_Dims - 1))
      (fun t st => (ops.add st.1 (enc.toFloat (a (z + t * NumberVoxels))), st.2 + 1))
      (ops.ofInt 0, 0)
  else
    (ops.ofInt 0, 0)

/-- Lines 80-83 (and 100-103): `if (counter < 2) f_mean = 0; else f_mean = f_mean / counter;`. -/
def finishMean {F : Type} (ops : FloatOps F) (st : F × Int) : F :=
  if st.2 < 2 then ops.ofInt 0 else ops.div st.1 (ops.ofInt st.2)

/-- The template function `getMean` (lines 69-85). -/
def getMean {F S : Type} (ops : FloatOps F) (enc : Encoding F S) (a : Int → S)
    (NumberVoxels : Int) (size_Dim : Int → Int) (Num_of_Dims : Int) (z : Int) : F :=
  finishMean ops (meanPass ops enc a NumberVoxels size_Dim Num_of_Dims z)

/-- The template function `getSD` (lines 88-111). -/
def getSD {F S : Type} (ops : FloatOps F) (enc : Encoding F S) (a : Int → S)
    (NumberVoxels : Int) (size_Dim : Int → Int) (Num_of_Dims : Int) (z : Int) : F :=
  let st := meanPass ops enc a NumberVoxels size_Dim Num_of_Dims z
  let counter := st.2
  let f_mean := finishMean ops st
  let sd := forLoop (size_Dim (Num_of_Dims - 1))
    (fun t sd =>
      ops.add sd (ops.mul (ops.sub (enc.toFloat (a (z + t * NumberVoxels))) f_mean)
                          (ops.sub (enc.toFloat (a (z + t * NumberVoxels))) f_mean)))
    (ops.ofInt 0)
  ops.sqrt (ops.div sd (ops.ofInt counter))

/-! ## Reference quantities used to state the claims -/

/-- The samples of voxel `z` in time order: `a[z + t * NumberVoxels]` for `t = 0 .. T-1`,
widened to float. -/
def series {F S : Type} (enc : Encoding F S) (a : Int → S) (NumberVoxels : Int) (T : Nat)
    (z : Int) : List F :=
  (List.range T).map (fun (t : Nat) => enc.toFloat (a (z + (t : Int) * NumberVoxels)))

/-- Sum of a list of floats, added one by one from the left starting from 0. -/
def fsum {F : Type} (ops : FloatOps F) (xs : List F) : F :=
  xs.foldl ops.add (ops.ofInt 0)

/-- Population standard deviation of the samples around `m` with divisor `n`:
the square root of the sum of the squared deviations divided by `n`. -/
def populationSD {F : Type} (ops : FloatOps F) (xs : List F) (m : F) (n : Int) : F :=
  ops.sqrt (ops.div (fsum ops (xs.map (fun x => ops.mul (ops.sub x m) (ops.sub x m))))
    (ops.ofInt n))

/-! ## The time-series printers -/

/-- A line printed on standard output. -/
inductive Line
  /-- The line `l x y z time intensity`. -/
  | header
  /-- A line of six tab-separated integers. -/
  | record (l x y z time intensity : Int)
  /-- The message `Statistical Analysis is not implemented yet!!!!!!`. -/
  | notImplemented
  deriving DecidableEq, Repr

/-- The template function `printPartialTS` (lines 114-118): the lines it prints. -/
def printPartialTS {F S : Type} (enc : Encoding F S) (xx yy zz tt ll : Int) (a : Int → S) :
    List Line :=
  [Line.header, Line.record ll xx yy zz tt (enc.toInt (a ll))]

/-- The template function `printTS` (lines 121-127): the lines it prints. -/
def printTS {F S : Type} (enc : Encoding F S) (xx yy zz tmax ll : Int) (a : Int → S) :
    List Line :=
  forLoop tmax (fun k out => out ++ [Line.record ll xx yy zz k (enc.toInt (a ll))]) [Line.header]

/-! ## `main`: dimension set-up (lines 130-156) -/

/-- The assignment `p[i] = v` on an array. -/
def set1 {α : Type} (p : Int → α) (i : Int) (v : α) : Int → α :=
  fun i' => if i' = i then v else p i'

/-- What `main` has computed when it reaches line 156. -/
structure Setup where
  /-- The global `Num_of_Dims`. -/
  Num_of_Dims : Int
  /-- The global array `size_Dim`. -/
  size_Dim : Int → Int
  /-- The local `xmax`. -/
  xmax : Int
  /-- The local `ymax`. -/
  ymax : Int
  /-- The local `zmax`. -/
  zmax : Int
  /-- The local `tmax`. -/
  tmax : Int
  /-- The global `NumberVoxels`. -/
  NumberVoxels : Int

/-- The value a 32-bit `int` holds when the exact result of an operation is `x`: `x`
itself when it lies in `[-2^31, 2^31)`, else `x` reduced modulo `2^32` into that range. -/
def wrapInt32 (x : Int) : Int := (x + 2 ^ 31) % 2 ^ 32 - 2 ^ 31

/-- Lines 130-156 of `main`.  `argc` is the argument count, `atoiArgv i` is `atoi(argv[i])`
and `heap` is the content of the freshly allocated `size_Dim` block (and of what lies
behind it) before the loop fills it.  The result is `none` when the program leaves through
`exit(0)` at line 137; the allocation is taken to succeed.  The product of line 156 is
evaluated from the left on `int`: `(xmax * ymax) * zmax`, each product reduced to 32 bits. -/
def mainSetup (argc : Int) (atoiArgv : Int → Int) (heap : Int → Int) : Option Setup :=
  if argc < 13 then none
  else
    let Num_of_Dims := atoiArgv 1
    let size_Dim := forLoop Num_of_Dims
      (fun z sd => set1 sd z (atoiArgv (2 + z))) heap
    let xmax := size_Dim 0
    let ymax := size_Dim 1
    let zmax := size_Dim 2
    let tmax := size_Dim 3
    some { Num_of_Dims := Num_of_Dims, size_Dim := size_Dim, xmax := xmax, ymax := ymax,
           zmax := zmax, tmax := tmax,
           NumberVoxels := wrapInt32 (wrapInt32 (xmax * ymax) * zmax) }

/-- The dimension descriptor given on the command line: `size_Dim1 ... size_DimN`. -/
def descriptor (atoiArgv : Int → Int) : List Int :=
  (List.range (atoiArgv 1).toNat).map (fun (z : Nat) => atoiArgv (2 + (z : Int)))

/-! ## `main`: statistic dispatch (lines 162-226) and output (lines 232-251) -/

/-- The globals and locals that the dispatch and output code reads and never writes.
The part of `main` that fills them is not in the source file. -/
structure Config (F : Type) where
  /-- Input encoding tag. -/
  Idata_type : Int
  /-- Output encoding tag. -/
  Odata_type : Int
  /-- Statistic tag. -/
  stat_type : Int
  /-- Number of dimensions. -/
  Num_of_Dims : Int
  /-- Dimension sizes. -/
  size_Dim : Int → Int
  /-- The global `NumberVoxels`. -/
  NumberVoxels : Int
  /-- Number of input/output file pairs. -/
  NumberFiles : Int
  /-- The `unsigned char **` input array. -/
  Idata_u : Int → Int → Int
  /-- The `short int **` input array. -/
  Idata_ss : Int → Int → Int
  /-- The `unsigned short int **` input array. -/
  Idata_su : Int → Int → Int
  /-- The `float **` input array. -/
  Idata_f : Int → Int → F
  /-- Voxel coordinates and indices selected for the time-series display. -/
  xx : Int
  /-- See `xx`. -/
  yy : Int
  /-- See `xx`. -/
  zz : Int
  /-- See `xx`. -/
  tt : Int
  /-- Linear index selected for the time-series display. -/
  ll : Int
  /-- Display mode. -/
  print_type : Int
  /-- The local `tmax` of `main`. -/
  tmax : Int

/-- The assignment `p[i][j] = v` on a two-index array. -/
def set2 {α : Type} (p : Int → Int → α) (i j : Int) (v : α) : Int → Int → α :=
  fun i' j' => if i' = i ∧ j' = j then v else p i' j'

/-- Body of the inner loop of the `stat_type == 1` branch (lines 168-175). -/
def meanCell {F : Type} (ops : FloatOps F) (c : Config F) (kk z : Int)
    (Odata_f : Int → Int → F) : Int → Int → F :=
  if c.Idata_type = 1 ∧ c.Idata_u z kk ≠ 0 then
    set2 Odata_f z kk
      (getMean ops (intEncoding ops) (c.Idata_u kk) c.NumberVoxels c.size_Dim c.Num_of_Dims z)
  else if c.Idata_type = 2 ∧ c.Idata_ss z kk ≠ 0 then
    set2 Odata_f z kk
      (getMean ops (intEncoding ops) (c.Idata_ss kk) c.NumberVoxels c.size_Dim c.Num_of_Dims z)
  else if c.Idata_type = 3 ∧ c.Idata_su z kk ≠ 0 then
    set2 Odata_f z kk
      (getMean ops (intEncoding ops) (c.Idata_su kk) c.NumberVoxels c.size_Dim c.Num_of_Dims z)
  else if c.Idata_type = 4 ∧ ops.nonzero (c.Idata_f z kk) = true then
    set2 Odata_f z kk
      (getMean ops (floatEncoding ops) (c.Idata_f kk) c.NumberVoxels c.size_Dim c.Num_of_Dims z)
  else Odata_f

/-- Body of the inner loop of the `stat_type == 2` branch (lines 183-190). -/
def sdCell {F : Type} (ops : FloatOps F) (c : Config F) (kk z : Int)
    (Odata_f : Int → Int → F) : Int → Int → F :=
  if c.Idata_type = 1 ∧ c.Idata_u z kk ≠ 0 then
    set2 Odata_f z kk
      (getSD ops (intEncoding ops) (c.Idata_u kk) c.NumberVoxels c.size_Dim c.Num_of_Dims z)
  else if c.Idata_type = 2 ∧ c.Idata_ss z kk ≠ 0 then
    set2 Odata_f z kk
      (getSD ops (intEncoding ops) (c.Idata_ss kk) c.NumberVoxels c.size_Dim c.Num_of_Dims z)
  else if c.Idata_type = 3 ∧ c.Idata_su z kk ≠ 0 then
    set2 Odata_f z kk
      (getSD ops (intEncoding ops) (c.Idata_su kk) c.NumberVoxels c.size_Dim c.Num_of_Dims z)
  else if c.Idata_type = 4 ∧ ops.nonzero (c.Idata_f z kk) = true then
    set2 Odata_f z kk
      (getSD ops (floatEncoding ops) (c.Idata_f kk) c.NumberVoxels c.size_Dim c.Num_of_Dims z)
  else Odata_f

/-- The expression `NumberVoxels/size_Dim[Num_of_Dims-1]` (C integer division, which
truncates toward zero; a zero divisor is undefined in C++ and gives 0 here). -/
def voxelsOverTime {F : Type} (c : Config F) : Int :=
  Int.tdiv c.NumberVoxels (c.size_Dim (c.Num_of_Dims - 1))

/-- The `stat_type == 1` branch (lines 162-178): the array `Odata_f` after the two loops. -/
def meanDispatch {F : Type} (ops : FloatOps F) (c : Config F) (Odata_f : Int → Int → F) :
    Int → Int → F :=
  forLoop c.NumberFiles (fun kk O => forLoop c.NumberVoxels (fun z O => meanCell ops c kk z O) O)
    Odata_f

/-- The `stat_type == 2` branch (lines 180-193): the array `Odata_f` after the two loops. -/
def sdDispatch {F : Type} (ops : FloatOps F) (c : Config F) (Odata_f : Int → Int → F) :
    Int → Int → F :=
  forLoop c.NumberFiles (fun kk O => forLoop (voxelsOverTime c) (fun z O => sdCell ops c kk z O) O)
    Odata_f

/-- The `stat_type == 3` branch (lines 195-222): the lines printed. -/
def seriesDispatch {F : Type} (ops : FloatOps F) (c : Config F) : List Line :=
  if c.print_type = 1 then
    forLoop c.NumberFiles (fun kk out =>
      if c.Idata_type = 1 then
        out ++ printPartialTS (intEncoding ops) c.xx c.yy c.zz c.tt c.ll (c.Idata_u kk)
      else if c.Idata_type = 2 then
        out ++ printPartialTS (intEncoding ops) c.xx c.yy c.zz c.tt c.ll (c.Idata_ss kk)
      else if c.Idata_type = 3 then
        out ++ printPartialTS (intEncoding ops) c.xx c.yy c.zz c.tt c.ll (c.Idata_su kk)
      else if c.Idata_type = 4 then
        out ++ printPartialTS (floatEncoding ops) c.xx c.yy c.zz c.tt c.ll (c.Idata_f kk)
      else out) []
  else if c.print_type = 2 then
    forLoop c.NumberFiles (fun kk out =>
      if c.Idata_type = 1 then
        out ++ printTS (intEncoding ops) c.xx c.yy c.zz c.tmax c.ll (c.Idata_u kk)
      else if c.Idata_type = 2 then
        out ++ printTS (intEncoding ops) c.xx c.yy c.zz c.tmax c.ll (c.Idata_ss kk)
      else if c.Idata_type = 3 then
        out ++ printTS (intEncoding ops) c.xx c.yy c.zz c.tmax c.ll (c.Idata_su kk)
      else if c.Idata_type = 4 then
        out ++ printTS (floatEncoding ops) c.xx c.yy c.zz c.tmax c.ll (c.Idata_f kk)
      else out) []
  else []

/-- Lines 162-226: the chain over `stat_type`.  Returns `Odata_f` and the lines printed. -/
def statStage {F : Type} (ops : FloatOps F) (c : Config F) (Odata_f : Int → Int → F) :
    (Int → Int → F) × List Line :=
  if c.stat_type = 1 then (meanDispatch ops c Odata_f, [])
  else if c.stat_type = 2 then (sdDispatch ops c Odata_f, [])
  else if c.stat_type = 3 then (Odata_f, seriesDispatch ops c)
  else (Odata_f, [Line.notImplemented])

/-- One element of an output file, in the encoding it is written in. -/
inductive OutElem (F : Type)
  /-- An `unsigned char`. -/
  | uchar (v : Int)
  /-- A `short int`. -/
  | short (v : Int)
  /-- An `unsigned short int`. -/
  | ushort (v : Int)
  /-- A `float`. -/
  | float (v : F)
  deriving DecidableEq, Repr

/-- The arrays written by the output loop and the `fwrite` calls made so far, oldest
first: each is the index of the output stream and the elements passed to it. -/
structure OutState (F : Type) where
  /-- The `unsigned char **` output array. -/
  Odata_u : Int → Int → Int
  /-- The `short int **` output array. -/
  Odata_ss : Int → Int → Int
  /-- The `unsigned short int **` output array. -/
  Odata_su : Int → Int → Int
  /-- The `fwrite` calls. -/
  written : List (Int × List (OutElem F))

/-- The elements `row[0], ..., row[count-1]` that `fwrite (row, count*sizeof(elem), 1, fp)`
sends to the stream. -/
def payload {α β : Type} (count : Int) (row : Int → α) (wrap : α → β) : List β :=
  (List.range count.toNat).map (fun (z : Nat) => wrap (row (z : Int)))

/-- Body of the output loop for one `kk` (lines 233-250). -/
def saveFile {F : Type} (ops : FloatOps F) (c : Config F) (Odata_f : Int → Int → F) (kk : Int)
    (s : OutState F) : OutState F :=
  if c.Odata_type = 1 then
    let Odata_u := forLoop (voxelsOverTime c)
      (fun z O => set2 O z kk (ops.toUChar (Odata_f z kk))) s.Odata_u
    { s with Odata_u := Odata_u,
             written := s.written ++ [(kk, payload (voxelsOverTime c) (Odata_u kk) OutElem.uchar)] }
  else if c.Odata_type = 2 then
    let Odata_ss := forLoop (voxelsOverTime c)
      (fun z O => set2 O z kk (ops.toShort (Odata_f z kk))) s.Odata_ss
    { s with Odata_ss := Odata_ss,
             written := s.written ++ [(kk, payload (voxelsOverTime c) (Odata_ss kk) OutElem.short)] }
  else if c.Odata_type = 3 then
    let Odata_su := forLoop (voxelsOverTime c)
      (fun z O => set2 O z kk (ops.toUShort (Odata_f z kk))) s.Odata_su
    { s with Odata_su := Odata_su,
             written := s.written ++ [(kk, payload (voxelsOverTime c) (Odata_su kk) OutElem.ushort)] }
  else if c.Odata_type = 4 then
    { s with written := s.written ++ [(kk, payload (voxelsOverTime c) (Odata_f kk) OutElem.float)] }
  else s

/-- Lines 232-251: the output loop over the files. -/
def saveStage {F : Type} (ops : FloatOps F) (c : Config F) (Odata_f : Int → Int → F)
    (s : OutState F) : OutState F :=
  forLoop c.NumberFiles (fun kk s => saveFile ops c Odata_f kk s) s

/-- Lines 162-251: statistic dispatch followed by the output loop.  Returns the `fwrite`
calls made, oldest first. -/
def mainTail {F : Type} (ops : FloatOps F) (c : Config F) (Odata_f : Int → Int → F)
    (s : OutState F) : List (Int × List (OutElem F)) :=
  (saveStage ops c (statStage ops c Odata_f).1 s).written

/-- The elements written to output stream `k` (the payload of the first `fwrite` on it). -/
def fileContent {F : Type} (written : List (Int × List (OutElem F))) (k : Int) :
    Option (List (OutElem F)) :=
  (written.find? (fun w => w.1 == k)).map (fun w => w.2)

/-! ## IEEE-754 binary32

A model of `float` as binary32 with round-to-nearest-even, used for the concrete
evaluations.  A finite value is kept as sign, integer significand `m` and exponent `e`
(value `± m * 2 ^ e`) in the unique form of the binary32 encoding: `2 ^ 23 ≤ m < 2 ^ 24`
and `-149 ≤ e ≤ 104` for a normal number, `m < 2 ^ 23` and `e = -149` for a subnormal
number or zero. -/

/-- Number of binary digits of `n` (0 for 0), by recursion on a fuel argument. -/
def bitLenAux : Nat → Nat → Nat
  | 0, _ => 0
  | fuel + 1, n => if n = 0 then 0 else 1 + bitLenAux fuel (n / 2)

/-- Number of binary digits of `n`. -/
def bitLen (n : Nat) : Nat := bitLenAux n n

/-- Integer square root of `N`: decides the bits below position `b` of the root, from the
top, starting from the partial root `r`. -/
def isqrtAux (N : Nat) : Nat → Nat → Nat
  | 0, r => r
  | b + 1, r => isqrtAux N b (if (r + 2 ^ b) * (r + 2 ^ b) ≤ N then r + 2 ^ b else r)

/-- The largest `r` with `r * r ≤ N`. -/
def isqrt (N : Nat) : Nat := isqrtAux N (bitLen N / 2 + 1) 0

/-- A binary32 datum: a finite value `± m * 2 ^ e`, an infinity or a NaN. -/
inductive F32
  /-- The value `(-1) ^ neg * m * 2 ^ e`; zero is `m = 0`, `e = -149`, with a sign. -/
  | finite (neg : Bool) (m : Nat) (e : Int)
  /-- Plus or minus infinity. -/
  | inf (neg : Bool)
  /-- Not a number. -/
  | nan
  deriving DecidableEq, Repr

namespace F32

/-- Signed zero. -/
def zero (neg : Bool) : F32 := .finite neg 0 (-149)

/-- The binary32 value nearest to `± p / q` (`q > 0`), ties to even; overflow gives the
infinity of that sign and underflow goes through the subnormal numbers to zero. -/
def roundRat (neg : Bool) (p q : Nat) : F32 :=
  if p = 0 then zero neg else
  let L : Int := (bitLen p : Int) - (bitLen q : Int)
  let ge : Bool := if 0 ≤ L then decide (q * 2 ^ L.toNat ≤ p) else decide (q ≤ p * 2 ^ (-L).toNat)
  let E : Int := if ge then L else L - 1
  let e : Int := max E (-126) - 23
  let num : Nat := if 0 ≤ e then p else p * 2 ^ (-e).toNat
  let den : Nat := if 0 ≤ e then q * 2 ^ e.toNat else q
  let n0 := num / den
  let r := num % den
  let n := if 2 * r < den then n0 else if den < 2 * r then n0 + 1
    else if n0 % 2 = 0 then n0 else n0 + 1
  let n' := if n = 2 ^ 24 then 2 ^ 23 else n
  let e' := if n = 2 ^ 24 then e + 1 else e
  if 104 < e' then .inf neg else .finite neg n' e'

/-- The binary32 value nearest to `± p * 2 ^ e`. -/
def roundDyadic (neg : Bool) (p : Nat) (e : Int) : F32 :=
  if 0 ≤ e then roundRat neg (p * 2 ^ e.toNat) 1 else roundRat neg p (2 ^ (-e).toNat)

/-- Conversion of an `int` to `float`. -/
def ofInt (i : Int) : F32 := roundDyadic (decide (i < 0)) i.natAbs 0

/-- Sign change. -/
def negate : F32 → F32
  | .finite s m e => .finite (!s) m e
  | .inf s => .inf (!s)
  | .nan => .nan

/-- The integer `± m`. -/
def signedMag (s : Bool) (m : Nat) : Int := if s then -(m : Int) else (m : Int)

/-- Binary32 addition. -/
def add : F32 → F32 → F32
  | .nan, _ => .nan
  | _, .nan => .nan
  | .inf s, .inf t => if s = t then .inf s else .nan
  | .inf s, .finite _ _ _ => .inf s
  | .finite _ _ _, .inf t => .inf t
  | .finite s m e, .finite t n f =>
    let g := min e f
    let S : Int := signedMag s (m * 2 ^ (e - g).toNat) + signedMag t (n * 2 ^ (f - g).toNat)
    if S = 0 then zero (s && t) else roundDyadic (decide (S < 0)) S.natAbs g

/-- Binary32 subtraction. -/
def sub (x y : F32) : F32 := add x (negate y)

/-- Binary32 multiplication. -/
def mul : F32 → F32 → F32
  | .nan, _ => .nan
  | _, .nan => .nan
  | .inf s, .inf t => .inf (xor s t)
  | .inf s, .finite t n _ => if n = 0 then .nan else .inf (xor s t)
  | .finite s m _, .inf t => if m = 0 then .nan else .inf (xor s t)
  | .finite s m e, .finite t n f => roundDyadic (xor s t) (m * n) (e + f)

/-- Binary32 division; a nonzero finite value divided by zero is an infinity and `0 / 0`
is NaN. -/
def div : F32 → F32 → F32
  | .nan, _ => .nan
  | _, .nan => .nan
  | .inf _, .inf _ => .nan
  | .inf s, .finite t _ _ => .inf (xor s t)
  | .finite s _ _, .inf t => zero (xor s t)
  | .finite s m e, .finite t n f =>
    if n = 0 then (if m = 0 then .nan else .inf (xor s t))
    else if 0 ≤ e - f then roundRat (xor s t) (m * 2 ^ (e - f).toNat) n
    else roundRat (xor s t) m (n * 2 ^ (f - e).toNat)

/-- Binary32 square root, correctly rounded: the root of `m * 2 ^ e` is computed on an
integer scaled by `4 ^ 32` and rounded with a sticky bit. -/
def sqrt : F32 → F32
  | .nan => .nan
  | .inf s => if s then .nan else .inf false
  | .finite s m e =>
    if m = 0 then .finite s m e
    else if s then .nan
    else
      let m' := if e % 2 = 0 then m else 2 * m
      let e' := if e % 2 = 0 then e else e - 1
      let N := m' * 4 ^ 32
      let r := isqrt N
      let sticky := if r * r = N then 0 else 1
      roundDyadic false (2 * r + sticky) (e' / 2 - 33)

/-- The comparison `x != 0`: false for the two zeros only. -/
def nonzero : F32 → Bool
  | .finite _ m _ => m != 0
  | _ => true

/-- Truncation toward zero of the finite value `± m * 2 ^ e`. -/
def trunc (s : Bool) (m : Nat) (e : Int) : Int :=
  signedMag s (if 0 ≤ e then m * 2 ^ e.toNat else m / 2 ^ (-e).toNat)

/-- The conversion `(int)x`: truncation toward zero.  Where the truncated value does not
fit in `int`, and for NaN and the infinities, C++ leaves the conversion undefined; the
x86-64 result `INT_MIN` is taken there. -/
def toInt : F32 → Int
  | .finite s m e =>
    let v := trunc s m e
    if -(2 ^ 31) ≤ v ∧ v < 2 ^ 31 then v else -(2 ^ 31)
  | _ => -(2 ^ 31)

/-- The conversion `(unsigned char)x`: truncation toward zero when the result fits;
elsewhere (undefined in C++) the low 8 bits of `(int)x`, as x86-64 code produces. -/
def toUChar (x : F32) : Int := toInt x % 2 ^ 8

/-- The conversion `(unsigned short int)x`: as `toUChar` with 16 bits. -/
def toUShort (x : F32) : Int := toInt x % 2 ^ 16

/-- The conversion `(short int)x`: as `toUChar` with 16 bits, two's complement. -/
def toShort (x : F32) : Int := (toInt x + 2 ^ 15) % 2 ^ 16 - 2 ^ 15

end F32

/-- C `float` as IEEE-754 binary32, each operation rounded to nearest, ties to even. -/
def ieee32 : FloatOps F32 where
  ofInt := F32.ofInt
  add := F32.add
  sub := F32.sub
  mul := F32.mul
  div := F32.div
  sqrt := F32.sqrt
  nonzero := F32.nonzero
  toInt := F32.toInt
  toUChar := F32.toUChar
  toShort := F32.toShort
  toUShort := F32.toUShort

/-- The buffer whose first elements are those of `l`; the memory behind it reads as
`dflt`. -/
def bufferOf {α : Type} (l : List α) (dflt : α) : Int → α :=
  fun i => if 0 ≤ i then l.getD i.toNat dflt else dflt

/-! ## Concrete inputs -/

/-- Dimension sizes `(x, y, z, t)` as the array `size_Dim`. -/
def dimsOf (x y z t : Int) : Int → Int := bufferOf [x, y, z, t] 0

/-- A `float` buffer holding the given integers. -/
def floatBuffer (l : List Int) : Int → F32 := bufferOf (l.map F32.ofInt) (F32.ofInt 0)

/-- The result array before the statistics are computed: all zero. -/
def zeroResult : Int → Int → F32 := fun _ _ => F32.ofInt 0

/-- The output arrays before the output loop, with no `fwrite` made yet. -/
def emptyOut : OutState F32 where
  Odata_u := fun _ _ => 0
  Odata_ss := fun _ _ => 0
  Odata_su := fun _ _ => 0
  written := []

/-- The end-to-end scenario of the specification: one file, dimensions `(2,1,1,3)`, the
float buffer `[1,2,3,4,5,6]`, float output. -/
def scenario (stat_type : Int) : Config F32 where
  Idata_type := 4
  Odata_type := 4
  stat_type := stat_type
  Num_of_Dims := 4
  size_Dim := dimsOf 2 1 1 3
  NumberVoxels := 2
  NumberFiles := 1
  Idata_u := fun _ _ => 0
  Idata_ss := fun _ _ => 0
  Idata_su := fun _ _ => 0
  Idata_f := fun k => if k = 0 then floatBuffer [1, 2, 3, 4, 5, 6] else floatBuffer []
  xx := 0
  yy := 0
  zz := 0
  tt := 0
  ll := 0
  print_type := 0
  tmax := 3

/-- Four files of dimensions `(4,1,1,2)`, so `NumberVoxels = 4`, `T = 2` and every file
holds 8 float samples; file `k` holds `10k+1, ..., 10k+8`, except file 1, which holds
`file1`.  With four files and four voxels every access `Idata_f[z][kk]`, `Odata_f[z][kk]`
of the dispatch loops stays inside a 4-row array. -/
def fourFiles (stat_type : Int) (file1 : List Int) : Config F32 where
  Idata_type := 4
  Odata_type := 4
  stat_type := stat_type
  Num_of_Dims := 4
  size_Dim := dimsOf 4 1 1 2
  NumberVoxels := 4
  NumberFiles := 4
  Idata_u := fun _ _ => 0
  Idata_ss := fun _ _ => 0
  Idata_su := fun _ _ => 0
  Idata_f := fun k =>
    if k = 1 then floatBuffer file1
    else if 0 ≤ k ∧ k < 4 then
      floatBuffer ((List.range 8).map (fun (i : Nat) => 10 * k + (i : Int) + 1))
    else floatBuffer []
  xx := 0
  yy := 0
  zz := 0
  tt := 0
  ll := 0
  print_type := 0
  tmax := 2

/-- The arguments `fMRI_Stats N d1 ... dN -Idata_type ...` as seen through `atoi`:
`argv[1]` is the number of dimensions, `argv[2 ..]` the dimension sizes; the program name
and the option words that follow convert to 0. -/
def argvOf (dims : List Int) : Int → Int :=
  bufferOf ([0, (dims.length : Int)] ++ dims) 0

/-! ## Bounds-checked reducers

The reducers once more, on a buffer of known length: every read `a[i]` is checked
against the bounds of the buffer and the function returns `none` as soon as a read falls
outside. -/

/-- The read `a[i]` on a buffer holding exactly the elements of `buf`: `none` when `i` is
negative or not below the length. -/
def readAt {S : Type} (buf : List S) (i : Int) : Option S :=
  if 0 ≤ i then buf[i.toNat]? else none

/-- The loop `for (int t = 0; t < bound; t++)` with a body that can fail. -/
def forLoopChecked {σ : Type} (bound : Int) (body : Int → σ → Option σ) (init : σ) :
    Option σ :=
  (List.range bound.toNat).foldlM (fun st (t : Nat) => body (t : Int) st) init

/-- The index `z + t * NumberVoxels` as the program computes it: `z`, `t` and
`NumberVoxels` are `int`, so the product and the sum are 32-bit `int` operations. -/
def offsetInt (NumberVoxels z t : Int) : Int := wrapInt32 (z + wrapInt32 (t * NumberVoxels))

/-- The accumulation pass of lines 71-79 (and 90-99) with checked reads: the sentinel read
`a[z]`, then `a[z + t * NumberVoxels]` in every iteration. -/
def meanPassChecked {F S : Type} (ops : FloatOps F) (enc : Encoding F S) (buf : List S)
    (NumberVoxels : Int) (size_Dim : Int → Int) (Num_of_Dims : Int) (z : Int) :
    Option (F × Int) :=
  (readAt buf z).bind (fun a_z =>
    if enc.nonzero a_z then
      forLoopChecked (size_Dim (Num_of_Dims - 1))
        (fun t st => (readAt buf (offsetInt NumberVoxels z t)).map
          (fun s => (ops.add st.1 (enc.toFloat s), st.2 + 1)))
        (ops.ofInt 0, 0)
    else
      some (ops.ofInt 0, 0))

/-- The function `getMean` with checked reads. -/
def getMeanChecked {F S : Type} (ops : FloatOps F) (enc : Encoding F S) (buf : List S)
    (NumberVoxels : Int) (size_Dim : Int → Int) (Num_of_Dims : Int) (z : Int) : Option F :=
  (meanPassChecked ops enc buf NumberVoxels size_Dim Num_of_Dims z).map (finishMean ops)

/-- The function `getSD` with checked reads; line 107 reads `a[z + t * NumberVoxels]`
twice. -/
def getSDChecked {F S : Type} (ops : FloatOps F) (enc : Encoding F S) (buf : List S)
    (NumberVoxels : Int) (size_Dim : Int → Int) (Num_of_Dims : Int) (z : Int) : Option F :=
  (meanPassChecked ops enc buf NumberVoxels size_Dim Num_of_Dims z).bind (fun st =>
    (forLoopChecked (size_Dim (Num_of_Dims - 1))
      (fun t sd => (readAt buf (offsetInt NumberVoxels z t)).bind (fun s1 =>
        (readAt buf (offsetInt NumberVoxels z t)).map (fun s2 =>
          ops.add sd (ops.mul (ops.sub (enc.toFloat s1) (finishMean ops st))
                              (ops.sub (enc.toFloat s2) (finishMean ops st))))))
      (ops.ofInt 0)).map
    (fun sd => ops.sqrt (ops.div sd (ops.ofInt st.2))))

/-! ## The divisions -/

/-- The divisor of the division `f_mean / counter` of line 83, when `getMean` executes it;
`none` when the branch `counter < 2` of line 80 is taken and nothing is divided. -/
def getMeanDivisor {F S : Type} (ops : FloatOps F) (enc : Encoding F S) (a : Int → S)
    (NumberVoxels : Int) (size_Dim : Int → Int) (Num_of_Dims : Int) (z : Int) : Option Int :=
  let st := meanPass ops enc a NumberVoxels size_Dim Num_of_Dims z
  if st.2 < 2 then none else some st.2

/-- The divisor `counter` of the division `sd / counter` of line 109, which `getSD`
executes on every path. -/
def getSDDivisor {F S : Type} (ops : FloatOps F) (enc : Encoding F S) (a : Int → S)
    (NumberVoxels : Int) (size_Dim : Int → Int) (Num_of_Dims : Int) (z : Int) : Int :=
  (meanPass ops enc a NumberVoxels size_Dim Num_of_Dims z).2

/-! ## Values of binary32 data -/

/-- Truncation toward zero: the integer part of `q`. -/
def truncTowardZero {K : Type} [LinearOrderedField K] [FloorRing K] (q : K) : Int :=
  if 0 ≤ q then ⌊q⌋ else ⌈q⌉

namespace F32

/-- The number a finite binary32 datum stands for (0 for the infinities and NaN). -/
def toRat : F32 → ℚ
  | .finite s m e => (signedMag s m : ℚ) * (2 : ℚ) ^ e
  | _ => 0

/-- The datum is a finite number. -/
def isFinite : F32 → Bool
  | .finite _ _ _ => true
  | _ => false

end F32

/-! ## Rounding: the steps of `roundRat` and their specification -/

namespace F32

/-- The binary exponent that `roundRat` computes for `p / q`: the `E` with
`2 ^ E ≤ p / q < 2 ^ (E + 1)`. -/
def roundExp (p q : Nat) : Int :=
  let L : Int := (bitLen p : Int) - (bitLen q : Int)
  let ge : Bool := if 0 ≤ L then decide (q * 2 ^ L.toNat ≤ p) else decide (q ≤ p * 2 ^ (-L).toNat)
  if ge then L else L - 1

/-- The quotient `num / den` rounded to the nearest integer, ties to even, as `roundRat`
computes it. -/
def roundHalfEven (num den : Nat) : Nat :=
  let n0 := num / den
  let r := num % den
  if 2 * r < den then n0 else if den < 2 * r then n0 + 1
    else if n0 % 2 = 0 then n0 else n0 + 1

/-- The last step of `roundRat`: a significand that has reached `2 ^ 24` is renormalised,
and an exponent above 104 gives an infinity. -/
def pack (neg : Bool) (n : Nat) (e : Int) : F32 :=
  let n' := if n = 2 ^ 24 then 2 ^ 23 else n
  let e' := if n = 2 ^ 24 then e + 1 else e
  if 104 < e' then .inf neg else .finite neg n' e'

/-- Significand and exponent of a normal binary32 number. -/
def Normal (n : Nat) (e : Int) : Prop := 2 ^ 23 ≤ n ∧ n < 2 ^ 24 ∧ -149 ≤ e ∧ e ≤ 104

/-- The datum `r` is the positive rational `x` rounded to binary32 with the sign `neg`:
for the quantum `2 ^ e` of the binade of `x` (`e = -149` in the subnormal range) and an
integer `n` within half a quantum of `x / 2 ^ e`, `r` is `± n * 2 ^ e` renormalised. -/
def Rounded (x : ℚ) (neg : Bool) (r : F32) : Prop :=
  ∃ (e : Int) (n : Nat), -149 ≤ e ∧ x < 2 ^ (e + 24) ∧ (-149 < e → (2 : ℚ) ^ (e + 23) ≤ x)
    ∧ |(n : ℚ) * 2 ^ e - x| ≤ 2 ^ (e - 1) ∧ r = pack neg n e

/-- Absolute value: the sign is cleared. -/
def abs : F32 → F32
  | .finite _ m e => .finite false m e
  | .inf _ => .inf false
  | .nan => .nan

/-- The datum is a normal number `± m * 2 ^ e` with `2^-63 ≤ m * 2 ^ e < 2^64`: its square
is at least `2^-126` and below `2^128` (no underflow, no overflow). -/
def inSquareRange : F32 → Bool
  | .finite _ m e => decide (2 ^ 23 ≤ m) && decide (m < 2 ^ 24) && decide (-86 ≤ e) && decide (e ≤ 40)
  | _ => false

end F32

/-! ## Floats used in the examples -/

/-- The float `1.5000002384185791` (`12582914 * 2^-23`). -/
def oneAndAHalf : F32 := F32.finite false 12582914 (-23)

/-- The float `2^100`. -/
def twoPow100 : F32 := F32.finite false (2 ^ 23) 77

/-- The float `2^-100`. -/
def twoPowNeg100 : F32 := F32.finite false (2 ^ 23) (-123)

/-! ## More concrete inputs -/

/-- Four files of dimensions `(4,1,1,2)` as in `fourFiles`, with the output encoding
chosen; the output loop handles `NumberVoxels/size_Dim[Num_of_Dims-1] = 2` elements per
file. -/
def quantConfig (Odata_type : Int) : Config F32 :=
  { fourFiles 1 [] with Odata_type := Odata_type }

/-- The float `3.9000000953674316` (`16357786 * 2^-22`), the binary32 value of `3.9f`. -/
def threePointNine : F32 := F32.finite false 16357786 (-22)

/-- Four float files of dimensions `(4,1,1,2)` as in `fourFiles`, every one of the 8 samples
of every file being `v`, with `stat_type = 1` (Mean) and the output encoding chosen. -/
def constFiles (Odata_type : Int) (v : F32) : Config F32 :=
  { fourFiles 1 [] with
      Odata_type := Odata_type,
      Idata_f := fun _ => bufferOf (List.replicate 8 v) (F32.ofInt 0) }

/-- The end-to-end scenario with the time-series display selected: `stat_type = 3`,
`print_type = 2` (all time points), spatial index `ll`. -/
def seriesScenario (ll : Int) : Config F32 :=
  { scenario 3 with print_type := 2, ll := ll }

/-! ## Basic facts about the loops -/

theorem forLoop_ofNat {σ : Type} (n : Nat) (body : Int → σ → σ) (init : σ) :
    forLoop (n : Int) body init = (List.range n).foldl (fun st (t : Nat) => body (t : Int) st) init := by
  simp [forLoop]

theorem foldl_accum_count {F S : Type} (ops : FloatOps F) (enc : Encoding F S) (a : Int → S)
    (NumberVoxels z : Int) (l : List Nat) (f0 : F) (c0 : Int) :
    l.foldl (fun (st : F × Int) (t : Nat) =>
        (ops.add st.1 (enc.toFloat (a (z + (t : Int) * NumberVoxels))), st.2 + 1)) (f0, c0)
      = ((l.map (fun (t : Nat) => enc.toFloat (a (z + (t : Int) * NumberVoxels)))).foldl ops.add f0,
          c0 + l.length) := by
  induction l generalizing f0 c0 with
  | nil => simp
  | cons t l ih =>
    simp only [List.foldl_cons, List.map_cons, List.length_cons, ih]
    congr 1
    push_cast
    ring

/-- The accumulation pass on a non-background voxel: the float sum of the series and
`counter = T`. -/
theorem meanPass_nonzero {F S : Type} (ops : FloatOps F) (enc : Encoding F S) (a : Int → S)
    (NumberVoxels : Int) (size_Dim : Int → Int) (Num_of_Dims : Int) (z : Int) (T : Nat)
    (hT : size_Dim (Num_of_Dims - 1) = T) (hz : enc.nonzero (a z) = true) :
    meanPass ops enc a NumberVoxels size_Dim Num_of_Dims z
      = (fsum ops (series enc a NumberVoxels T z), (T : Int)) := by
  unfold meanPass
  rw [if_pos hz, hT, forLoop_ofNat, foldl_accum_count]
  simp [fsum, series]

/-- The accumulation pass on a background voxel leaves `f_mean = 0` and `counter = 0`. -/
theorem meanPass_zero {F S : Type} (ops : FloatOps F) (enc : Encoding F S) (a : Int → S)
    (NumberVoxels : Int) (size_Dim : Int → Int) (Num_of_Dims : Int) (z : Int)
    (hz : enc.nonzero (a z) = false) :
    meanPass ops enc a NumberVoxels size_Dim Num_of_Dims z = (ops.ofInt 0, 0) := by
  simp [meanPass, hz]

theorem foldl_add_map {F : Type} (ops : FloatOps F) (g : Nat → F) (l : List Nat) (f0 : F) :
    l.foldl (fun (sd : F) (t : Nat) => ops.add sd (g t)) f0 = (l.map g).foldl ops.add f0 := by
  rw [List.foldl_map]

/-- The value of `getSD` in terms of the accumulation pass: the squared deviations from
the finished mean, summed over all `T` time points, divided by the counter of the pass. -/
theorem getSD_eq {F S : Type} (ops : FloatOps F) (enc : Encoding F S) (a : Int → S)
    (NumberVoxels : Int) (size_Dim : Int → Int) (Num_of_Dims : Int) (z : Int) (T : Nat)
    (hT : size_Dim (Num_of_Dims - 1) = T) :
    getSD ops enc a NumberVoxels size_Dim Num_of_Dims z
      = populationSD ops (series enc a NumberVoxels T z)
          (finishMean ops (meanPass ops enc a NumberVoxels size_Dim Num_of_Dims z))
          (meanPass ops enc a NumberVoxels size_Dim Num_of_Dims z).2 := by
  unfold getSD populationSD
  simp only []
  rw [hT, forLoop_ofNat, foldl_add_map]
  simp [fsum, series, List.map_map, Function.comp_def]

/-! ## The reducers: claims C1 to C5 -/

/-- C2: on a voxel whose sample at `t = 0` is zero, `getMean` returns 0, whatever the time
extent and the later samples are. -/
theorem getMean_background {F S : Type} (ops : FloatOps F) (enc : Encoding F S) (a : Int → S)
    (NumberVoxels : Int) (size_Dim : Int → Int) (Num_of_Dims : Int) (z : Int)
    (hz : enc.nonzero (a z) = false) :
    getMean ops enc a NumberVoxels size_Dim Num_of_Dims z = ops.ofInt 0 := by
  unfold getMean
  rw [meanPass_zero ops enc a NumberVoxels size_Dim Num_of_Dims z hz]
  simp [finishMean]

/-- Witness for C2: the series `[0, 7, 9]` has mean 0. -/
theorem getMean_background_witness :
    (floatEncoding ieee32).nonzero (floatBuffer [0, 7, 9] 0) = false
    ∧ getMean ieee32 (floatEncoding ieee32) (floatBuffer [0, 7, 9]) 1 (dimsOf 1 1 1 3) 4 0
        = ieee32.ofInt 0 :=
  ⟨by decide,
   getMean_background ieee32 (floatEncoding ieee32) (floatBuffer [0, 7, 9]) 1
     (dimsOf 1 1 1 3) 4 0 (by decide)⟩

/-- C3: when the time extent is 1, `getMean` returns 0 at every voxel, also when the
single sample is nonzero. -/
theorem getMean_single_sample {F S : Type} (ops : FloatOps F) (enc : Encoding F S)
    (a : Int → S) (NumberVoxels : Int) (size_Dim : Int → Int) (Num_of_Dims : Int) (z : Int)
    (hT : size_Dim (Num_of_Dims - 1) = 1) :
    getMean ops enc a NumberVoxels size_Dim Num_of_Dims z = ops.ofInt 0 := by
  cases hz : enc.nonzero (a z) with
  | false =>
    unfold getMean
    rw [meanPass_zero ops enc a NumberVoxels size_Dim Num_of_Dims z hz]
    simp [finishMean]
  | true =>
    unfold getMean
    rw [meanPass_nonzero ops enc a NumberVoxels size_Dim Num_of_Dims z 1 (by simpa using hT) hz]
    simp [finishMean]

/-- Witness for C3: one voxel, `T = 1`, single sample 5: the mean is 0. -/
theorem getMean_single_sample_witness :
    dimsOf 1 1 1 1 (4 - 1) = 1
    ∧ (floatEncoding ieee32).nonzero (floatBuffer [5] 0) = true
    ∧ getMean ieee32 (floatEncoding ieee32) (floatBuffer [5]) 1 (dimsOf 1 1 1 1) 4 0
        = ieee32.ofInt 0 :=
  ⟨by decide, by decide,
   getMean_single_sample ieee32 (floatEncoding ieee32) (floatBuffer [5]) 1
     (dimsOf 1 1 1 1) 4 0 (by decide)⟩

/-- The value of a 32-bit `int` that fits is kept. -/
theorem wrapInt32_of_fits (x : Int) (h0 : -(2 ^ 31) ≤ x) (h1 : x < 2 ^ 31) : wrapInt32 x = x := by
  unfold wrapInt32
  omega

/-- C8 as stated fails: the program multiplies `size_Dim[0]`, `size_Dim[1]` and
`size_Dim[2]` whatever `Num_of_Dims` is, on 32-bit `int`.  For the five-dimensional
descriptor `[2,3,4,5,6]` it computes 24, not the product 120 of the first four entries; for
the three-dimensional descriptor `[2,3,5]` it computes 30, which contains the time extent 5,
not `2 * 3` (there line 155 also reads `size_Dim[3]`, one element past the block;
`NumberVoxels` does not depend on it).  For the four-dimensional descriptor
`[50000, 50000, 1, 2]` the product 2500000000 of the first three entries does not fit in
`int` and the program holds -1794967296. -/
theorem mainSetup_numberVoxels_counterexample :
    (descriptor (argvOf [2, 3, 4, 5, 6]) = [2, 3, 4, 5, 6]
      ∧ (mainSetup 17 (argvOf [2, 3, 4, 5, 6]) (fun _ => 0)).map Setup.NumberVoxels = some 24
      ∧ ((descriptor (argvOf [2, 3, 4, 5, 6])).take (5 - 1)).prod = 120)
    ∧ (descriptor (argvOf [2, 3, 5]) = [2, 3, 5]
      ∧ (mainSetup 17 (argvOf [2, 3, 5]) (fun _ => 0)).map Setup.NumberVoxels = some 30
      ∧ ((descriptor (argvOf [2, 3, 5])).take (3 - 1)).prod = 6)
    ∧ (descriptor (argvOf [50000, 50000, 1, 2]) = [50000, 50000, 1, 2]
      ∧ (mainSetup 17 (argvOf [50000, 50000, 1, 2]) (fun _ => 0)).map Setup.NumberVoxels
          = some (-1794967296)
      ∧ ((descriptor (argvOf [50000, 50000, 1, 2])).take (4 - 1)).prod = 2500000000) := by
  decide

/-- C8, amended: for a descriptor of `N = 4` entries `(x, y, z, t)` with positive spatial
entries whose product `x * y * z` fits in a 32-bit `int`, the program, once past the
argument-count check, computes `NumberVoxels = size_Dim[0] * size_Dim[1] * size_Dim[2]`,
the product of the first `N - 1` entries, in which the time extent `size_Dim[3]` does not
occur. -/
theorem mainSetup_numberVoxels_4D (argc : Int) (atoiArgv : Int → Int) (heap : Int → Int)
    (hargc : 13 ≤ argc) (hN : atoiArgv 1 = 4)
    (hx : 0 < atoiArgv 2) (hy : 0 < atoiArgv 3) (hz : 0 < atoiArgv 4)
    (hfit : atoiArgv 2 * atoiArgv 3 * atoiArgv 4 < 2 ^ 31) :
    (mainSetup argc atoiArgv heap).map Setup.NumberVoxels
        = some (atoiArgv 2 * atoiArgv 3 * atoiArgv 4)
      ∧ ((descriptor atoiArgv).take (4 - 1)).prod = atoiArgv 2 * atoiArgv 3 * atoiArgv 4 := by
  have h13 : ¬ (argc < 13) := by omega
  have hxy : 0 < atoiArgv 2 * atoiArgv 3 := Int.mul_pos hx hy
  have hxyz : 0 < atoiArgv 2 * atoiArgv 3 * atoiArgv 4 := Int.mul_pos hxy hz
  have hle : atoiArgv 2 * atoiArgv 3 ≤ atoiArgv 2 * atoiArgv 3 * atoiArgv 4 :=
    le_mul_of_one_le_right hxy.le hz
  have w1 : wrapInt32 (atoiArgv 2 * atoiArgv 3) = atoiArgv 2 * atoiArgv 3 :=
    wrapInt32_of_fits _ (by omega) (by omega)
  have w2 : wrapInt32 (atoiArgv 2 * atoiArgv 3 * atoiArgv 4)
      = atoiArgv 2 * atoiArgv 3 * atoiArgv 4 :=
    wrapInt32_of_fits _ (by omega) (by omega)
  constructor
  · simp [mainSetup, h13, hN, forLoop, List.range_succ, set1, w1, w2]
  · simp [descriptor, hN, List.range_succ, List.take]
    ring

/-- Witness for the amended C8: the example of the file header, dimensions
`64 64 32 125`, gives `NumberVoxels = 131072`. -/
theorem mainSetup_numberVoxels_4D_witness :
    ((13 : Int) ≤ 17 ∧ argvOf [64, 64, 32, 125] 1 = 4
      ∧ 0 < argvOf [64, 64, 32, 125] 2 ∧ 0 < argvOf [64, 64, 32, 125] 3
      ∧ 0 < argvOf [64, 64, 32, 125] 4
      ∧ argvOf [64, 64, 32, 125] 2 * argvOf [64, 64, 32, 125] 3 * argvOf [64, 64, 32, 125] 4
          < 2 ^ 31)
    ∧ ((mainSetup 17 (argvOf [64, 64, 32, 125]) (fun _ => 0)).map Setup.NumberVoxels
          = some (argvOf [64, 64, 32, 125] 2 * argvOf [64, 64, 32, 125] 3
              * argvOf [64, 64, 32, 125] 4)
        ∧ ((descriptor (argvOf [64, 64, 32, 125])).take (4 - 1)).prod
          = argvOf [64, 64, 32, 125] 2 * argvOf [64, 64, 32, 125] 3
              * argvOf [64, 64, 32, 125] 4)
    ∧ (mainSetup 17 (argvOf [64, 64, 32, 125]) (fun _ => 0)).map Setup.NumberVoxels
        = some 131072 :=
  ⟨by decide,
   mainSetup_numberVoxels_4D 17 (argvOf [64, 64, 32, 125]) (fun _ => 0) (by decide) (by decide)
     (by decide) (by decide) (by decide) (by decide),
   by decide⟩

/-! ## The output loop: claims C7 and C10 -/

theorem saveFile_float {F : Type} (ops : FloatOps F) (c : Config F) (Odata_f : Int → Int → F)
    (kk : Int) (s : OutState F) (h4 : c.Odata_type = 4) :
    saveFile ops c Odata_f kk s
      = { s with written :=
            s.written ++ [(kk, payload (voxelsOverTime c) (Odata_f kk) OutElem.float)] } := by
  simp [saveFile, h4]

theorem foldl_saveFile_float {F : Type} (ops : FloatOps F) (c : Config F)
    (Odata_f : Int → Int → F) (h4 : c.Odata_type = 4) (l : List Nat) (s : OutState F) :
    l.foldl (fun (s : OutState F) (kk : Nat) => saveFile ops c Odata_f (kk : Int) s) s
      = { s with written := s.written ++ l.map (fun (kk : Nat) =>
            ((kk : Int), payload (voxelsOverTime c) (Odata_f (kk : Int)) OutElem.float)) } := by
  induction l generalizing s with
  | nil => simp
  | cons kk l ih =>
    rw [List.foldl_cons, ih, saveFile_float ops c Odata_f kk s h4]
    simp

/-- With output encoding 4 (float) the output loop converts nothing: for every file `kk` in
`[0, NumberFiles)`, in that order, the elements handed to `fwrite` are the first
`NumberVoxels/size_Dim[Num_of_Dims-1]` elements `Odata_f[kk][0], Odata_f[kk][1], ...` of row
`kk` of the float result array, and the integer output arrays are left as they were. -/
theorem saveStage_float_passthrough {F : Type} (ops : FloatOps F) (c : Config F)
    (Odata_f : Int → Int → F) (s : OutState F) (h4 : c.Odata_type = 4) :
    saveStage ops c Odata_f s
      = { s with
          written := s.written ++ List.map
            (fun (kk : Nat) => ((kk : Int),
              List.map (fun (z : Nat) => OutElem.float (Odata_f (kk : Int) (z : Int)))
                (List.range (voxelsOverTime c).toNat)))
            (List.range c.NumberFiles.toNat) } := by
  unfold saveStage forLoop
  rw [foldl_saveFile_float ops c Odata_f h4]
  rfl

/-- Every `fwrite` of the output loop is handed `NumberVoxels/size_Dim[Num_of_Dims-1]`
elements, whatever the output encoding. -/
theorem saveFile_count {F : Type} (ops : FloatOps F) (c : Config F) (Odata_f : Int → Int → F)
    (kk : Int) (s : OutState F) (w : Int × List (OutElem F))
    (hw : w ∈ (saveFile ops c Odata_f kk s).written) :
    w ∈ s.written ∨ (w.1 = kk ∧ w.2.length = (voxelsOverTime c).toNat) := by
  unfold saveFile at hw
  split_ifs at hw
  all_goals first
    | exact Or.inl hw
    | (simp only [List.mem_append, List.mem_singleton] at hw
       rcases hw with hw | hw
       · exact Or.inl hw
       · right; subst hw; simp [payload])

/-- C10 fails on the code: the elements written for a file are not the elements of its
Result Buffer.  With four files of dimensions `(4,1,1,2)` and float output, a result array
whose row 0 holds the `NumberVoxels = 4` results `0, 1, 2, 3` is written for file 0 as
`[0, 1]`: the values that are written are unchanged, but only
`NumberVoxels/size_Dim[Num_of_Dims-1] = 2` of the 4 elements reach the file.  In the
end-to-end scenario of the specification (one file, dimensions `(2,1,1,3)`) the result 3 of
voxel 0 is computed and nothing at all is written. -/
theorem saveStage_float_at_failing_input :
    ((fourFiles 1 []).Odata_type = 4 ∧ (fourFiles 1 []).NumberVoxels = 4
      ∧ (List.range 4).map (fun (z : Nat) => (fun (kk z : Int) => F32.ofInt (10 * kk + z)) 0 z)
          = [F32.ofInt 0, F32.ofInt 1, F32.ofInt 2, F32.ofInt 3]
      ∧ fileContent (saveStage ieee32 (fourFiles 1 []) (fun kk z => F32.ofInt (10 * kk + z))
            emptyOut).written 0
          = some [OutElem.float (F32.ofInt 0), OutElem.float (F32.ofInt 1)])
    ∧ ((scenario 1).Odata_type = 4 ∧ (scenario 1).NumberVoxels = 2
      ∧ (statStage ieee32 (scenario 1) zeroResult).1 0 0 = F32.ofInt 3
      ∧ mainTail ieee32 (scenario 1) zeroResult emptyOut = [(0, [])]) := by
  decide

/-- C7 fails on the code: the number of elements handed to `fwrite` for each file is
`NumberVoxels/size_Dim[Num_of_Dims-1]`, not `NumberVoxels`.  For dimensions `(2,1,1,3)`
`main` sets `NumberVoxels = 2` and the output loop writes `2/3 = 0` elements; for
`(4,1,1,2)` it writes 2 of 4; for the `64 64 32 125` of the file header it writes 1048 of
131072. -/
theorem saveStage_count_at_failing_input :
    ((mainSetup 17 (argvOf [2, 1, 1, 3]) (fun _ => 0)).map Setup.NumberVoxels = some 2
      ∧ (scenario 1).NumberVoxels = 2
      ∧ voxelsOverTime (scenario 1) = 0
      ∧ (saveStage ieee32 (scenario 1) zeroResult emptyOut).written = [(0, [])])
    ∧ ((fourFiles 1 []).NumberVoxels = 4
      ∧ ((saveStage ieee32 (fourFiles 1 []) zeroResult emptyOut).written.map
            (fun w => w.2.length)) = [2, 2, 2, 2])
    ∧ ((mainSetup 17 (argvOf [64, 64, 32, 125]) (fun _ => 0)).map
          (fun s => (s.NumberVoxels, Int.tdiv s.NumberVoxels (s.size_Dim (s.Num_of_Dims - 1))))
        = some (131072, 1048)) := by
  decide

/-! ## End to end: claims C6 and C9 -/

/-- C6 fails on the code.  Four float files of dimensions `(4,1,1,2)`, file `k` holding
`10k+1, ..., 10k+8`, `stat_type = 1`, float output: the means of file 0 at voxels 0..3 are
3, 4, 5, 6, but the elements written for file 0 are `[3, 13]`: two elements instead of four,
and the second one is the mean of file 1 at voxel 0.  The dispatch loop stores the result
of file `kk`, voxel `z` at `Odata_f[z][kk]`, and the output loop writes row `Odata_f[kk]`. -/
theorem mainTail_mean_at_failing_input :
    fileContent (mainTail ieee32 (fourFiles 1 [11, 12, 13, 14, 15, 16, 17, 18])
        zeroResult emptyOut) 0
      = some [OutElem.float (F32.ofInt 3), OutElem.float (F32.ofInt 13)]
    ∧ (List.range 4).map (fun (v : Nat) =>
          getMean ieee32 (floatEncoding ieee32)
            ((fourFiles 1 [11, 12, 13, 14, 15, 16, 17, 18]).Idata_f 0) 4 (dimsOf 4 1 1 2) 4 v)
        = [F32.ofInt 3, F32.ofInt 4, F32.ofInt 5, F32.ofInt 6]
    ∧ getMean ieee32 (floatEncoding ieee32)
          ((fourFiles 1 [11, 12, 13, 14, 15, 16, 17, 18]).Idata_f 1) 4 (dimsOf 4 1 1 2) 4 0
        = F32.ofInt 13
    ∧ (statStage ieee32 (fourFiles 1 [11, 12, 13, 14, 15, 16, 17, 18]) zeroResult).1 1 0
        = F32.ofInt 4 := by
  decide

/-- C9 fails on the code.  Two runs on four float files of dimensions `(4,1,1,2)` with
`stat_type = 1` that agree on file 0 and differ only in the first sample of file 1 (11 in
the first run, 0 in the second).  The elements written for file 0 are `[3, 13]` in the
first run and `[3, 0]` in the second; and the slot `Odata_f[1][0]`, where the dispatch loop
stores the mean of file 0 at voxel 1, holds 4 in the first run and is never assigned in the
second, because the guard reads `Idata_f[1][0]`, a sample of file 1. -/
theorem mainTail_cross_file_at_failing_input :
    (fourFiles 1 [11, 12, 13, 14, 15, 16, 17, 18]).Idata_f 0
      = (fourFiles 1 [0, 12, 13, 14, 15, 16, 17, 18]).Idata_f 0
    ∧ fileContent (mainTail ieee32 (fourFiles 1 [11, 12, 13, 14, 15, 16, 17, 18])
          zeroResult emptyOut) 0
        = some [OutElem.float (F32.ofInt 3), OutElem.float (F32.ofInt 13)]
    ∧ fileContent (mainTail ieee32 (fourFiles 1 [0, 12, 13, 14, 15, 16, 17, 18])
          zeroResult emptyOut) 0
        = some [OutElem.float (F32.ofInt 3), OutElem.float (F32.ofInt 0)]
    ∧ (statStage ieee32 (fourFiles 1 [11, 12, 13, 14, 15, 16, 17, 18]) zeroResult).1 1 0
        = F32.ofInt 4
    ∧ (statStage ieee32 (fourFiles 1 [0, 12, 13, 14, 15, 16, 17, 18]) zeroResult).1 1 0
        = zeroResult 1 0 :=
  ⟨rfl, by decide, by decide, by decide, by decide⟩

/-! ## More facts about the accumulation pass -/

/-- The accumulation pass for any time extent: on a non-background voxel the float sum of
the series and the number of time points, which is 0 when `size_Dim[Num_of_Dims-1] ≤ 0`. -/
theorem meanPass_eq {F S : Type} (ops : FloatOps F) (enc : Encoding F S) (a : Int → S)
    (NumberVoxels : Int) (size_Dim : Int → Int) (Num_of_Dims : Int) (z : Int) :
    meanPass ops enc a NumberVoxels size_Dim Num_of_Dims z
      = if enc.nonzero (a z) then
          (fsum ops (series enc a NumberVoxels (size_Dim (Num_of_Dims - 1)).toNat z),
            (((size_Dim (Num_of_Dims - 1)).toNat : Nat) : Int))
        else (ops.ofInt 0, 0) := by
  unfold meanPass forLoop
  split_ifs
  · rw [foldl_accum_count]
    simp [fsum, series]
  · rfl

/-- The value of `getSD` for any time extent. -/
theorem getSD_eq_toNat {F S : Type} (ops : FloatOps F) (enc : Encoding F S) (a : Int → S)
    (NumberVoxels : Int) (size_Dim : Int → Int) (Num_of_Dims : Int) (z : Int) :
    getSD ops enc a NumberVoxels size_Dim Num_of_Dims z
      = populationSD ops (series enc a NumberVoxels (size_Dim (Num_of_Dims - 1)).toNat z)
          (finishMean ops (meanPass ops enc a NumberVoxels size_Dim Num_of_Dims z))
          (meanPass ops enc a NumberVoxels size_Dim Num_of_Dims z).2 := by
  unfold getSD populationSD forLoop
  simp only []
  rw [foldl_add_map]
  simp [fsum, series, List.map_map, Function.comp_def]

/-- C18: `getMean` divides only when `counter ≥ 2`, so never by zero: the divisor of
line 83, when there is one, is at least 2, and the value returned is 0 or that quotient.
In `getSD` the divisor `counter` of line 109 is `T = size_Dim[Num_of_Dims-1]` when the
sample at `t = 0` is nonzero and `T ≥ 0`, and 0 otherwise; so it is nonzero if and only if
the sample at `t = 0` is nonzero and `T ≥ 1`. -/
theorem division_guards {F S : Type} (ops : FloatOps F) (enc : Encoding F S) (a : Int → S)
    (NumberVoxels : Int) (size_Dim : Int → Int) (Num_of_Dims : Int) (z : Int) :
    (∀ c, getMeanDivisor ops enc a NumberVoxels size_Dim Num_of_Dims z = some c → 2 ≤ c)
    ∧ getMean ops enc a NumberVoxels size_Dim Num_of_Dims z
        = (match getMeanDivisor ops enc a NumberVoxels size_Dim Num_of_Dims z with
            | none => ops.ofInt 0
            | some c =>
              ops.div (meanPass ops enc a NumberVoxels size_Dim Num_of_Dims z).1 (ops.ofInt c))
    ∧ getSDDivisor ops enc a NumberVoxels size_Dim Num_of_Dims z
        = (if enc.nonzero (a z) = true ∧ 0 ≤ size_Dim (Num_of_Dims - 1)
            then size_Dim (Num_of_Dims - 1) else 0)
    ∧ (getSDDivisor ops enc a NumberVoxels size_Dim Num_of_Dims z ≠ 0
        ↔ enc.nonzero (a z) = true ∧ 1 ≤ size_Dim (Num_of_Dims - 1))
    ∧ getSD ops enc a NumberVoxels size_Dim Num_of_Dims z
        = populationSD ops (series enc a NumberVoxels (size_Dim (Num_of_Dims - 1)).toNat z)
            (getMean ops enc a NumberVoxels size_Dim Num_of_Dims z)
            (getSDDivisor ops enc a NumberVoxels size_Dim Num_of_Dims z) := by
  have hd : getSDDivisor ops enc a NumberVoxels size_Dim Num_of_Dims z
      = (if enc.nonzero (a z) = true ∧ 0 ≤ size_Dim (Num_of_Dims - 1)
          then size_Dim (Num_of_Dims - 1) else 0) := by
    unfold getSDDivisor
    rw [meanPass_eq]
    by_cases hz : enc.nonzero (a z) = true
    · by_cases hT : 0 ≤ size_Dim (Num_of_Dims - 1)
      · simp [hz, hT, Int.toNat_of_nonneg hT]
      · have : (size_Dim (Num_of_Dims - 1)).toNat = 0 := by omega
        simp [hz, hT, this]
    · simp [hz]
  refine ⟨?_, ?_, hd, ?_, ?_⟩
  · intro c hc
    unfold getMeanDivisor at hc
    simp only [] at hc
    split_ifs at hc with h
    cases hc
    omega
  · unfold getMean finishMean getMeanDivisor
    simp only []
    split_ifs <;> rfl
  · rw [hd]
    by_cases hz : enc.nonzero (a z) = true
    · by_cases hT : 0 ≤ size_Dim (Num_of_Dims - 1)
      · simp only [hz, hT, and_self, if_true, true_and]
        omega
      · simp only [hz, hT, and_false, if_false, true_and]
        constructor
        · intro h; exact absurd rfl h
        · intro h; omega
    · simp [hz]
  · exact getSD_eq_toNat ops enc a NumberVoxels size_Dim Num_of_Dims z

/-! ## Independence of the voxels: claim C17 -/

theorem readAt_eq_some {S : Type} (buf : List S) (dflt : S) (i : Int) (h0 : 0 ≤ i)
    (h1 : i < buf.length) : readAt buf i = some (bufferOf buf dflt i) := by
  have h : i.toNat < buf.length := by omega
  simp [readAt, bufferOf, h0, List.getD_eq_getElem?_getD, List.getElem?_eq_getElem h]

theorem foldlM_eq_some {σ : Type} (body : Nat → σ → Option σ) (body' : Nat → σ → σ)
    (l : List Nat) (h : ∀ t ∈ l, ∀ st, body t st = some (body' t st)) (init : σ) :
    l.foldlM (fun st (t : Nat) => body t st) init
      = some (l.foldl (fun st (t : Nat) => body' t st) init) := by
  induction l generalizing init with
  | nil => rfl
  | cons t l ih =>
    rw [List.foldlM_cons, h t (List.mem_cons_self t l) init]
    simp only [Option.bind_eq_bind, Option.some_bind, List.foldl_cons]
    exact ih (fun t' ht' => h t' (List.mem_cons_of_mem t ht')) _

theorem forLoopChecked_eq_some {σ : Type} (bound : Int) (body : Int → σ → Option σ)
    (body' : Int → σ → σ)
    (h : ∀ t : Nat, (t : Int) < bound → ∀ st, body (t : Int) st = some (body' (t : Int) st))
    (init : σ) :
    forLoopChecked bound body init = some (forLoop bound body' init) := by
  unfold forLoopChecked forLoop
  apply foldlM_eq_some (fun t st => body (t : Int) st) (fun t st => body' (t : Int) st)
  intro t ht st
  apply h
  have := List.mem_range.mp ht
  omega

theorem offset_in_bounds (NumberVoxels z : Int) (T t : Nat) (hz0 : 0 ≤ z)
    (hz1 : z < NumberVoxels) (ht : t < T) :
    0 ≤ z + (t : Int) * NumberVoxels ∧ z + (t : Int) * NumberVoxels < NumberVoxels * (T : Int) := by
  have hNV : 0 < NumberVoxels := by omega
  have h1 : (0 : Int) ≤ (t : Int) * NumberVoxels := by positivity
  have h2 : ((t : Int) + 1) * NumberVoxels ≤ (T : Int) * NumberVoxels := by
    apply mul_le_mul_of_nonneg_right _ hNV.le
    exact_mod_cast ht
  constructor
  · omega
  · nlinarith

theorem foldlM_eq_none {σ : Type} (body : Nat → σ → Option σ) (l : List Nat) (t0 : Nat)
    (ht0 : t0 ∈ l) (h : ∀ st, body t0 st = none) (init : σ) :
    l.foldlM (fun st (t : Nat) => body t st) init = none := by
  induction l generalizing init with
  | nil => cases ht0
  | cons t l ih =>
    rw [List.foldlM_cons]
    by_cases ht : t0 = t
    · subst ht
      rw [h init]
      rfl
    · have hmem : t0 ∈ l := by
        rcases List.mem_cons.mp ht0 with h1 | h1
        · exact absurd h1 ht
        · exact h1
      cases hb : body t init with
      | none => rfl
      | some st => exact ih hmem st

/-- A checked loop in which some iteration fails whatever the state returns `none`. -/
theorem forLoopChecked_eq_none {σ : Type} (bound : Int) (body : Int → σ → Option σ) (t0 : Nat)
    (ht0 : (t0 : Int) < bound) (h : ∀ st, body (t0 : Int) st = none) (init : σ) :
    forLoopChecked bound body init = none := by
  unfold forLoopChecked
  apply foldlM_eq_none (fun t st => body (t : Int) st) _ t0 _ h
  apply List.mem_range.mpr
  omega

/-- Without overflow the index computed on `int` is `z + t * NumberVoxels`. -/
theorem offsetInt_of_fits (NumberVoxels z : Int) (T t : Nat) (hz0 : 0 ≤ z)
    (hz1 : z < NumberVoxels) (ht : t < T) (hfit : NumberVoxels * (T : Int) < 2 ^ 31) :
    offsetInt NumberVoxels z (t : Int) = z + (t : Int) * NumberVoxels := by
  have hNV : 0 < NumberVoxels := by omega
  have h1 : (0 : Int) ≤ (t : Int) * NumberVoxels := by positivity
  have h2 := offset_in_bounds NumberVoxels z T t hz0 hz1 ht
  unfold offsetInt
  rw [wrapInt32_of_fits ((t : Int) * NumberVoxels) (by omega) (by omega)]
  exact wrapInt32_of_fits _ (by omega) (by omega)

/-- C16 as stated fails: the offsets are computed on 32-bit `int`.  With
`NumberVoxels = 8388608` and `T = 300` (a buffer of `2516582400` samples), voxel `z = 0`
and `t = 256 < T`, the product `t * NumberVoxels = 2^31` does not fit: the index the program
computes is `-2147483648`, outside `[0, NumberVoxels * T)`, and `getMean` and `getSD` with
bounds-checked reads on a buffer of that length take the out-of-range branch. -/
theorem reads_in_bounds_counterexample :
    ((1 : Int) ≤ 8388608 ∧ 1 ≤ 300 ∧ (0 : Int) ≤ 0 ∧ (0 : Int) < 8388608 ∧ 256 < 300
      ∧ ((List.replicate 2516582400 (1 : Int)).length : Int) = 8388608 * ((300 : Nat) : Int))
    ∧ offsetInt 8388608 0 256 = -2147483648
    ∧ ¬ (0 ≤ offsetInt 8388608 0 256 ∧ offsetInt 8388608 0 256 < 8388608 * ((300 : Nat) : Int))
    ∧ getMeanChecked ieee32 (intEncoding ieee32) (List.replicate 2516582400 (1 : Int)) 8388608
        (dimsOf 8388608 1 1 300) 4 0 = none
    ∧ getSDChecked ieee32 (intEncoding ieee32) (List.replicate 2516582400 (1 : Int)) 8388608
        (dimsOf 8388608 1 1 300) 4 0 = none := by
  have hoff : offsetInt 8388608 0 ((256 : Nat) : Int) = -2147483648 := by decide
  have hread : readAt (List.replicate 2516582400 (1 : Int))
      (offsetInt 8388608 0 ((256 : Nat) : Int)) = none := by
    rw [hoff]
    unfold readAt
    rw [if_neg (by decide)]
  have hz : readAt (List.replicate 2516582400 (1 : Int)) 0 = some 1 := by
    unfold readAt
    rw [if_pos (le_refl _), List.getElem?_replicate]
    rfl
  have hT : dimsOf 8388608 1 1 300 (4 - 1) = 300 := by decide
  have hlen : ((List.replicate 2516582400 (1 : Int)).length : Int)
      = 8388608 * ((300 : Nat) : Int) := by
    rw [List.length_replicate]
    norm_num
  have hpass : meanPassChecked ieee32 (intEncoding ieee32)
      (List.replicate 2516582400 (1 : Int)) 8388608 (dimsOf 8388608 1 1 300) 4 0 = none := by
    unfold meanPassChecked
    rw [hz, hT, Option.some_bind, if_pos (by decide)]
    apply forLoopChecked_eq_none _ _ 256 (by decide)
    intro st
    rw [hread]
    rfl
  refine ⟨⟨by decide, by decide, by decide, by decide, by decide, hlen⟩, by decide, by decide, ?_, ?_⟩
  · unfold getMeanChecked
    rw [hpass]
    rfl
  · unfold getSDChecked
    rw [hpass]
    rfl
/-- C16, amended: reads stay in bounds when the sample count fits in `int`.  For a buffer
of length `NumberVoxels * T` with `T ≥ 1`, `NumberVoxels * T < 2^31` and a voxel `z` in
`[0, NumberVoxels)` (so that `NumberVoxels ≥ 1`), the sentinel offset `z` and every index
the program computes on `int` for `a[z + t * NumberVoxels]`, `t = 0 .. T-1`, is
`z + t * NumberVoxels` and lies in `[0, NumberVoxels * T)`; so `getMean` and `getSD` with
bounds-checked reads never take the out-of-range branch: they return a value, the one the
unchecked functions compute on that buffer. -/
theorem reads_in_bounds {F S : Type} (ops : FloatOps F) (enc : Encoding F S) (buf : List S)
    (dflt : S) (NumberVoxels : Int) (size_Dim : Int → Int) (Num_of_Dims : Int) (z : Int)
    (T : Nat) (hT : size_Dim (Num_of_Dims - 1) = T) (hT1 : 1 ≤ T)
    (hlen : (buf.length : Int) = NumberVoxels * (T : Int))
    (hfit : NumberVoxels * (T : Int) < 2 ^ 31) (hz0 : 0 ≤ z)
    (hz1 : z < NumberVoxels) :
    (0 ≤ z ∧ z < NumberVoxels * (T : Int))
    ∧ (∀ t : Nat, t < T →
        offsetInt NumberVoxels z (t : Int) = z + (t : Int) * NumberVoxels
        ∧ 0 ≤ offsetInt NumberVoxels z (t : Int)
        ∧ offsetInt NumberVoxels z (t : Int) < NumberVoxels * (T : Int))
    ∧ getMeanChecked ops enc buf NumberVoxels size_Dim Num_of_Dims z
        = some (getMean ops enc (bufferOf buf dflt) NumberVoxels size_Dim Num_of_Dims z)
    ∧ getSDChecked ops enc buf NumberVoxels size_Dim Num_of_Dims z
        = some (getSD ops enc (bufferOf buf dflt) NumberVoxels size_Dim Num_of_Dims z) := by
  have hoff : ∀ t : Nat, t < T →
      0 ≤ z + (t : Int) * NumberVoxels ∧ z + (t : Int) * NumberVoxels < NumberVoxels * (T : Int) :=
    fun t ht => offset_in_bounds NumberVoxels z T t hz0 hz1 ht
  have hidx : ∀ t : Nat, t < T →
      offsetInt NumberVoxels z (t : Int) = z + (t : Int) * NumberVoxels :=
    fun t ht => offsetInt_of_fits NumberVoxels z T t hz0 hz1 ht hfit
  have hsent : 0 ≤ z ∧ z < NumberVoxels * (T : Int) := by
    have := hoff 0 (by omega)
    simpa using this
  have hread : ∀ t : Nat, (t : Int) < size_Dim (Num_of_Dims - 1) →
      readAt buf (offsetInt NumberVoxels z (t : Int))
        = some (bufferOf buf dflt (z + (t : Int) * NumberVoxels)) := by
    intro t ht
    have htT : t < T := by omega
    have := hoff t htT
    rw [hidx t htT]
    exact readAt_eq_some buf dflt _ this.1 (by omega)
  have hz : readAt buf z = some (bufferOf buf dflt z) :=
    readAt_eq_some buf dflt z hsent.1 (by omega)
  have hpass : meanPassChecked ops enc buf NumberVoxels size_Dim Num_of_Dims z
      = some (meanPass ops enc (bufferOf buf dflt) NumberVoxels size_Dim Num_of_Dims z) := by
    unfold meanPassChecked meanPass
    rw [hz]
    simp only [Option.some_bind]
    split_ifs
    · apply forLoopChecked_eq_some
      intro t ht st
      rw [hread t ht]
      rfl
    · rfl
  refine ⟨hsent, ?_, ?_, ?_⟩
  · intro t ht
    have := hoff t ht
    rw [hidx t ht]
    exact ⟨rfl, this.1, this.2⟩
  · unfold getMeanChecked getMean
    rw [hpass]
    rfl
  · unfold getSDChecked getSD
    rw [hpass]
    simp only [Option.some_bind]
    rw [forLoopChecked_eq_some (size_Dim (Num_of_Dims - 1)) _
      (fun t sd =>
        ops.add sd
          (ops.mul
            (ops.sub (enc.toFloat (bufferOf buf dflt (z + t * NumberVoxels)))
              (finishMean ops
                (meanPass ops enc (bufferOf buf dflt) NumberVoxels size_Dim Num_of_Dims z)))
            (ops.sub (enc.toFloat (bufferOf buf dflt (z + t * NumberVoxels)))
              (finishMean ops
                (meanPass ops enc (bufferOf buf dflt) NumberVoxels size_Dim Num_of_Dims z)))))]
    · rfl
    · intro t ht sd
      rw [hread t ht]
      rfl

/-- Witness for the amended C16: the buffer `[1,2,3,4,5,6]` of length `2 * 3`, voxel 1. -/
theorem reads_in_bounds_witness :
    (dimsOf 2 1 1 3 (4 - 1) = ((3 : Nat) : Int) ∧ 1 ≤ 3
      ∧ (([1, 2, 3, 4, 5, 6] : List Int).length : Int) = 2 * ((3 : Nat) : Int)
      ∧ (2 : Int) * ((3 : Nat) : Int) < 2 ^ 31
      ∧ (0 : Int) ≤ 1 ∧ (1 : Int) < 2)
    ∧ ((0 ≤ (1 : Int) ∧ (1 : Int) < 2 * ((3 : Nat) : Int))
      ∧ (∀ t : Nat, t < 3 →
          offsetInt 2 1 (t : Int) = 1 + (t : Int) * 2
          ∧ 0 ≤ offsetInt 2 1 (t : Int)
          ∧ offsetInt 2 1 (t : Int) < 2 * ((3 : Nat) : Int))
      ∧ getMeanChecked ieee32 (intEncoding ieee32) [1, 2, 3, 4, 5, 6] 2 (dimsOf 2 1 1 3) 4 1
          = some (getMean ieee32 (intEncoding ieee32) (bufferOf [1, 2, 3, 4, 5, 6] 0) 2
              (dimsOf 2 1 1 3) 4 1)
      ∧ getSDChecked ieee32 (intEncoding ieee32) [1, 2, 3, 4, 5, 6] 2 (dimsOf 2 1 1 3) 4 1
          = some (getSD ieee32 (intEncoding ieee32) (bufferOf [1, 2, 3, 4, 5, 6] 0) 2
              (dimsOf 2 1 1 3) 4 1))
    ∧ getMeanChecked ieee32 (intEncoding ieee32) [1, 2, 3, 4, 5, 6] 2 (dimsOf 2 1 1 3) 4 1
        = some (F32.ofInt 4)
    ∧ getMeanChecked ieee32 (intEncoding ieee32) [1, 2, 3, 4, 5] 2 (dimsOf 2 1 1 3) 4 1
        = none :=
  ⟨⟨by decide, by decide, by decide, by decide, by decide, by decide⟩,
   reads_in_bounds ieee32 (intEncoding ieee32) [1, 2, 3, 4, 5, 6] 0 2 (dimsOf 2 1 1 3) 4 1 3
     (by decide) (by decide) (by decide) (by decide) (by decide) (by decide),
   by decide, by decide⟩

/-! ## The conversion loop: claims C11 and C12 -/

/-- The conversion loop of lines 234-235 (and 239-240, 244-245): after
`for (z = 0; z < count; z++) O[z][kk] = f(z);` the column `kk` holds `f(z)` in the rows
`0 ≤ z < count` and every other element is unchanged. -/
theorem forLoop_set2_column {α : Type} (count kk : Int) (f : Int → α) (O : Int → Int → α)
    (i j : Int) :
    forLoop count (fun z O => set2 O z kk (f z)) O i j
      = if 0 ≤ i ∧ i < count ∧ j = kk then f i else O i j := by
  unfold forLoop
  have key : ∀ (n : Nat) (O : Int → Int → α),
      (List.range n).foldl (fun O (z : Nat) => set2 O (z : Int) kk (f (z : Int))) O i j
        = if 0 ≤ i ∧ i < (n : Int) ∧ j = kk then f i else O i j := by
    intro n
    induction n with
    | zero =>
      intro O
      simp only [List.range_zero, List.foldl_nil, Nat.cast_zero]
      rw [if_neg]
      rintro ⟨h0, h1, _⟩
      omega
    | succ n ih =>
      intro O
      rw [List.range_succ, List.foldl_append]
      simp only [List.foldl_cons, List.foldl_nil, set2]
      rw [ih]
      by_cases hi : i = (n : Int)
      · by_cases hj : j = kk
        · subst hi; subst hj
          simp
        · simp [hj]
      · have h1 : (0 ≤ i ∧ i < ((n + 1 : Nat) : Int) ∧ j = kk) ↔ (0 ≤ i ∧ i < (n : Int) ∧ j = kk) := by
          constructor
          · rintro ⟨a, b, c⟩
            refine ⟨a, ?_, c⟩
            push_cast at b
            omega
          · rintro ⟨a, b, c⟩
            refine ⟨a, ?_, c⟩
            push_cast
            omega
        simp only [hi, false_and, if_false, h1]
  have h := key count.toNat O
  rw [h]
  have h2 : (0 ≤ i ∧ i < ((count.toNat : Nat) : Int) ∧ j = kk) ↔ (0 ≤ i ∧ i < count ∧ j = kk) := by
    constructor
    · rintro ⟨a, b, c⟩
      exact ⟨a, by omega, c⟩
    · rintro ⟨a, b, c⟩
      exact ⟨a, by omega, c⟩
  simp only [h2]

/-- Truncation toward zero of a finite binary32 value, computed on the significand, is the
integer part of the number it stands for. -/
theorem trunc_eq_truncTowardZero (s : Bool) (m : Nat) (e : Int) :
    F32.trunc s m e = truncTowardZero (F32.toRat (F32.finite s m e)) := by
  unfold F32.trunc F32.toRat truncTowardZero
  by_cases he : 0 ≤ e
  · -- the value is an integer
    obtain ⟨k, rfl⟩ := Int.eq_ofNat_of_zero_le he
    have hv : (F32.signedMag s m : ℚ) * (2 : ℚ) ^ ((k : Int))
        = ((F32.signedMag s (m * 2 ^ k) : Int) : ℚ) := by
      unfold F32.signedMag
      cases s <;> simp [zpow_natCast]
    simp only [he, if_true, Int.toNat_ofNat, hv]
    split_ifs <;> simp
  · have hk : e = -((-e).toNat : Int) := by omega
    generalize (-e).toNat = k at hk
    subst hk
    have hfloor : ⌊((m : ℚ) / ((2 ^ k : Nat) : ℚ))⌋ = ((m / 2 ^ k : Nat) : Int) := by
      rw [Rat.floor_natCast_div_natCast]
      rfl
    have hnn : (0 : ℚ) ≤ (m : ℚ) / ((2 ^ k : Nat) : ℚ) := by positivity
    have hval : (2 : ℚ) ^ (-(k : Int)) = (((2 ^ k : Nat) : ℚ))⁻¹ := by
      rw [zpow_neg, zpow_natCast]
      push_cast
      rfl
    simp only [he, if_false, neg_neg, Int.toNat_ofNat, hval]
    cases s
    · have h1 : ((F32.signedMag false m : Int) : ℚ) * (((2 ^ k : Nat) : ℚ))⁻¹
          = (m : ℚ) / ((2 ^ k : Nat) : ℚ) := by
        simp [F32.signedMag, div_eq_mul_inv]
      rw [h1, if_pos hnn, hfloor]
      simp [F32.signedMag]
    · have h1 : ((F32.signedMag true m : Int) : ℚ) * (((2 ^ k : Nat) : ℚ))⁻¹
          = -((m : ℚ) / ((2 ^ k : Nat) : ℚ)) := by
        simp [F32.signedMag, div_eq_mul_inv]
      rw [h1]
      split_ifs with h0
      · have hz : (m : ℚ) / ((2 ^ k : Nat) : ℚ) = 0 := le_antisymm (by linarith) hnn
        have hz' : ((m / 2 ^ k : Nat) : Int) = 0 := by
          rw [← hfloor, hz]
          simp
        rw [hz]
        simp only [neg_zero, Int.floor_zero]
        simp only [F32.signedMag, if_true]
        omega
      · rw [Int.ceil_neg, hfloor]
        simp [F32.signedMag]

theorem truncTowardZero_mem (q : ℚ) (lo hi : Int) (hlo : lo ≤ 0) (hhi : 0 ≤ hi)
    (h1 : (lo : ℚ) ≤ q) (h2 : q ≤ (hi : ℚ)) :
    lo ≤ truncTowardZero q ∧ truncTowardZero q ≤ hi := by
  unfold truncTowardZero
  split_ifs with h0
  · constructor
    · exact le_trans hlo (Int.floor_nonneg.mpr h0)
    · have := Int.floor_le q
      have h3 : ((⌊q⌋ : Int) : ℚ) ≤ (hi : ℚ) := le_trans this h2
      exact_mod_cast h3
  · constructor
    · have := Int.le_ceil q
      have h3 : (lo : ℚ) ≤ ((⌈q⌉ : Int) : ℚ) := le_trans h1 this
      exact_mod_cast h3
    · have h3 : ⌈q⌉ ≤ 0 := Int.ceil_le.mpr (by push_cast; linarith)
      omega

/-- The conversion `(int)x` of a finite value whose integer part fits in 32 bits. -/
theorem toInt_finite (s : Bool) (m : Nat) (e : Int)
    (h1 : -(2 ^ 31) ≤ truncTowardZero (F32.toRat (F32.finite s m e)))
    (h2 : truncTowardZero (F32.toRat (F32.finite s m e)) < 2 ^ 31) :
    F32.toInt (F32.finite s m e) = truncTowardZero (F32.toRat (F32.finite s m e)) := by
  unfold F32.toInt
  simp only []
  rw [trunc_eq_truncTowardZero]
  rw [if_pos ⟨h1, h2⟩]

/-- The three narrowing conversions of a finite value within the range of the target. -/
theorem casts_in_range (r : F32) (hfin : r.isFinite = true) :
    ((0 : ℚ) ≤ r.toRat → r.toRat ≤ 255 → F32.toUChar r = truncTowardZero r.toRat)
    ∧ ((-32768 : ℚ) ≤ r.toRat → r.toRat ≤ 32767 → F32.toShort r = truncTowardZero r.toRat)
    ∧ ((0 : ℚ) ≤ r.toRat → r.toRat ≤ 65535 → F32.toUShort r = truncTowardZero r.toRat) := by
  cases r with
  | inf s => simp [F32.isFinite] at hfin
  | nan => simp [F32.isFinite] at hfin
  | finite s m e =>
    refine ⟨?_, ?_, ?_⟩
    · intro h1 h2
      have h := truncTowardZero_mem _ 0 255 (le_refl 0) (by norm_num)
        (by simpa using h1) (by simpa using h2)
      unfold F32.toUChar
      rw [toInt_finite s m e (by omega) (by omega)]
      omega
    · intro h1 h2
      have h := truncTowardZero_mem _ (-32768) 32767 (by norm_num) (by norm_num)
        (by simpa using h1) (by simpa using h2)
      unfold F32.toShort
      rw [toInt_finite s m e (by omega) (by omega)]
      omega
    · intro h1 h2
      have h := truncTowardZero_mem _ 0 65535 (le_refl 0) (by norm_num)
        (by simpa using h1) (by simpa using h2)
      unfold F32.toUShort
      rw [toInt_finite s m e (by omega) (by omega)]
      omega

theorem saveFile_uchar (ops : FloatOps F32) (c : Config F32) (Odata_f : Int → Int → F32)
    (kk : Int) (s : OutState F32) (h : c.Odata_type = 1) :
    saveFile ops c Odata_f kk s
      = { s with
          Odata_u := forLoop (voxelsOverTime c)
            (fun z O => set2 O z kk (ops.toUChar (Odata_f z kk))) s.Odata_u,
          written := s.written ++ [(kk, payload (voxelsOverTime c)
            (forLoop (voxelsOverTime c)
              (fun z O => set2 O z kk (ops.toUChar (Odata_f z kk))) s.Odata_u kk)
            OutElem.uchar)] } := by
  simp [saveFile, h]

theorem saveFile_short (ops : FloatOps F32) (c : Config F32) (Odata_f : Int → Int → F32)
    (kk : Int) (s : OutState F32) (h : c.Odata_type = 2) :
    (saveFile ops c Odata_f kk s).Odata_ss
      = forLoop (voxelsOverTime c)
          (fun z O => set2 O z kk (ops.toShort (Odata_f z kk))) s.Odata_ss := by
  simp [saveFile, h]

theorem saveFile_ushort (ops : FloatOps F32) (c : Config F32) (Odata_f : Int → Int → F32)
    (kk : Int) (s : OutState F32) (h : c.Odata_type = 3) :
    (saveFile ops c Odata_f kk s).Odata_su
      = forLoop (voxelsOverTime c)
          (fun z O => set2 O z kk (ops.toUShort (Odata_f z kk))) s.Odata_su := by
  simp [saveFile, h]

/-- For a result value `r = Odata_f[z][kk]` with `z` below
`NumberVoxels/size_Dim[Num_of_Dims-1]` that is finite and lies within the range of the
selected integer output encoding, the value the conversion loop stores at `Odata_x[z][kk]`
is `r` truncated toward zero (its integer part), not `r` rounded to nearest:
`unsigned char` for `Odata_type = 1` and `0 ≤ r ≤ 255`, `short int` for `Odata_type = 2` and
`-32768 ≤ r ≤ 32767`, `unsigned short int` for `Odata_type = 3` and `0 ≤ r ≤ 65535`. -/
theorem quantizer_truncates (c : Config F32) (Odata_f : Int → Int → F32) (kk : Int)
    (s : OutState F32) (z : Int) (hz0 : 0 ≤ z) (hz1 : z < voxelsOverTime c)
    (hfin : (Odata_f z kk).isFinite = true) :
    (c.Odata_type = 1 → 0 ≤ (Odata_f z kk).toRat → (Odata_f z kk).toRat ≤ 255 →
        (saveFile ieee32 c Odata_f kk s).Odata_u z kk = truncTowardZero (Odata_f z kk).toRat)
    ∧ (c.Odata_type = 2 → -32768 ≤ (Odata_f z kk).toRat → (Odata_f z kk).toRat ≤ 32767 →
        (saveFile ieee32 c Odata_f kk s).Odata_ss z kk = truncTowardZero (Odata_f z kk).toRat)
    ∧ (c.Odata_type = 3 → 0 ≤ (Odata_f z kk).toRat → (Odata_f z kk).toRat ≤ 65535 →
        (saveFile ieee32 c Odata_f kk s).Odata_su z kk
          = truncTowardZero (Odata_f z kk).toRat) := by
  obtain ⟨hu, hs, hus⟩ := casts_in_range (Odata_f z kk) hfin
  refine ⟨?_, ?_, ?_⟩
  · intro h h1 h2
    rw [saveFile_uchar ieee32 c Odata_f kk s h]
    simp only []
    rw [forLoop_set2_column, if_pos ⟨hz0, hz1, rfl⟩]
    exact hu h1 h2
  · intro h h1 h2
    rw [saveFile_short ieee32 c Odata_f kk s h, forLoop_set2_column, if_pos ⟨hz0, hz1, rfl⟩]
    exact hs h1 h2
  · intro h h1 h2
    rw [saveFile_ushort ieee32 c Odata_f kk s h, forLoop_set2_column, if_pos ⟨hz0, hz1, rfl⟩]
    exact hus h1 h2

/-- C11 fails on the code: not every result value within range reaches the output
truncated.  Four float files of dimensions `(4,1,1,2)` whose samples are all `3.9f`,
`stat_type = 1`, `unsigned char` output: every mean is `3.9f`, and `(unsigned char)3.9f` is
3, yet the elements written are `[3,0]`, `[3,3]`, `[0,0]`, `[0,0]`.  The conversion loop
stops at `NumberVoxels/size_Dim[Num_of_Dims-1] = 2` of the 4 voxels and stores the
conversion of `Odata_f[z][kk]` at `Odata_u[z][kk]`, while `fwrite` is handed row
`Odata_u[kk]`, partly before it has been filled. -/
theorem mainTail_uchar_at_failing_input :
    (List.range 4).map (fun (z : Nat) => (List.range 4).map (fun (kk : Nat) =>
        (statStage ieee32 (constFiles 1 threePointNine) zeroResult).1 z kk))
      = List.replicate 4 (List.replicate 4 threePointNine)
    ∧ F32.toUChar threePointNine = 3
    ∧ mainTail ieee32 (constFiles 1 threePointNine) zeroResult emptyOut
        = [(0, [OutElem.uchar 3, OutElem.uchar 0]), (1, [OutElem.uchar 3, OutElem.uchar 3]),
           (2, [OutElem.uchar 0, OutElem.uchar 0]), (3, [OutElem.uchar 0, OutElem.uchar 0])] := by
  decide

theorem toUChar_range (r : F32) : 0 ≤ F32.toUChar r ∧ F32.toUChar r < 256 := by
  unfold F32.toUChar
  constructor
  · exact Int.emod_nonneg _ (by norm_num)
  · exact Int.emod_lt_of_pos _ (by norm_num)

theorem toUChar_ofInt_fin : ∀ n : Fin 256, F32.toUChar (F32.ofInt ((n : Nat) : Int)) = ((n : Nat) : Int) := by
  decide

/-- Every value of `unsigned char` survives the widening to `float` and the conversion
back. -/
theorem toUChar_ofInt (n : Int) (h0 : 0 ≤ n) (h1 : n < 256) :
    F32.toUChar (F32.ofInt n) = n := by
  have h := toUChar_ofInt_fin ⟨n.toNat, by omega⟩
  simp only [Int.toNat_of_nonneg h0] at h
  exact h

/-- C12: narrowing to `unsigned char` is idempotent.  Quantizing a result value `r`,
widening the byte back to `float` and quantizing again gives the byte of the first
quantization; and when the conversion loop of `Odata_type = 1` is run a second time on the
widened output of its first run, the `unsigned char` array is unchanged and the same
elements are handed to `fwrite`.  (The range `[0, 255]` of the claim is where C++ defines
the first conversion; the second one always starts from a byte.) -/
theorem requantize_uchar (c : Config F32) (Odata_f : Int → Int → F32) (kk : Int)
    (s : OutState F32) (h1 : c.Odata_type = 1) :
    (∀ r : F32, ieee32.toUChar ((intEncoding ieee32).toFloat (ieee32.toUChar r))
        = ieee32.toUChar r)
    ∧ (saveFile ieee32 c
          (fun i j => (intEncoding ieee32).toFloat ((saveFile ieee32 c Odata_f kk s).Odata_u i j))
          kk (saveFile ieee32 c Odata_f kk s)).Odata_u
        = (saveFile ieee32 c Odata_f kk s).Odata_u
    ∧ (saveFile ieee32 c Odata_f kk s).written
        = s.written ++ [(kk, payload (voxelsOverTime c)
            ((saveFile ieee32 c Odata_f kk s).Odata_u kk) OutElem.uchar)]
    ∧ (saveFile ieee32 c
          (fun i j => (intEncoding ieee32).toFloat ((saveFile ieee32 c Odata_f kk s).Odata_u i j))
          kk (saveFile ieee32 c Odata_f kk s)).written
        = (saveFile ieee32 c Odata_f kk s).written ++ [(kk, payload (voxelsOverTime c)
            ((saveFile ieee32 c Odata_f kk s).Odata_u kk) OutElem.uchar)] := by
  have helem : ∀ r : F32, ieee32.toUChar ((intEncoding ieee32).toFloat (ieee32.toUChar r))
      = ieee32.toUChar r := by
    intro r
    exact toUChar_ofInt _ (toUChar_range r).1 (toUChar_range r).2
  have hO : (saveFile ieee32 c
        (fun i j => (intEncoding ieee32).toFloat ((saveFile ieee32 c Odata_f kk s).Odata_u i j))
        kk (saveFile ieee32 c Odata_f kk s)).Odata_u
      = (saveFile ieee32 c Odata_f kk s).Odata_u := by
    rw [saveFile_uchar ieee32 c _ kk (saveFile ieee32 c Odata_f kk s) h1]
    simp only []
    funext i j
    rw [forLoop_set2_column]
    split_ifs with h
    · obtain ⟨hi0, hi1, hj⟩ := h
      subst hj
      rw [saveFile_uchar ieee32 c Odata_f j s h1]
      simp only []
      rw [forLoop_set2_column, if_pos ⟨hi0, hi1, rfl⟩]
      exact helem _
    · rfl
  refine ⟨helem, hO, ?_, ?_⟩
  · rw [saveFile_uchar ieee32 c Odata_f kk s h1]
  · conv_lhs => rw [saveFile_uchar ieee32 c _ kk (saveFile ieee32 c Odata_f kk s) h1]
    simp only []
    rw [saveFile_uchar ieee32 c _ kk (saveFile ieee32 c Odata_f kk s) h1] at hO
    simp only [] at hO
    rw [hO]

/-- Witness for C12: two elements per file, the results `200.5` and `3.9` of file 0 (and
`7` elsewhere) are quantized to the bytes 200 and 3; quantizing the widened bytes again
writes the same two bytes. -/
theorem requantize_uchar_witness :
    (quantConfig 1).Odata_type = 1
    ∧ ((∀ r : F32, ieee32.toUChar ((intEncoding ieee32).toFloat (ieee32.toUChar r))
          = ieee32.toUChar r)
      ∧ (saveFile ieee32 (quantConfig 1)
            (fun i j => (intEncoding ieee32).toFloat
              ((saveFile ieee32 (quantConfig 1)
                (fun i j => if i = 0 ∧ j = 0 then F32.div (F32.ofInt 401) (F32.ofInt 2)
                  else if i = 1 ∧ j = 0 then F32.div (F32.ofInt 39) (F32.ofInt 10)
                  else F32.ofInt 7) 0 emptyOut).Odata_u i j))
            0 (saveFile ieee32 (quantConfig 1)
                (fun i j => if i = 0 ∧ j = 0 then F32.div (F32.ofInt 401) (F32.ofInt 2)
                  else if i = 1 ∧ j = 0 then F32.div (F32.ofInt 39) (F32.ofInt 10)
                  else F32.ofInt 7) 0 emptyOut)).Odata_u
          = (saveFile ieee32 (quantConfig 1)
                (fun i j => if i = 0 ∧ j = 0 then F32.div (F32.ofInt 401) (F32.ofInt 2)
                  else if i = 1 ∧ j = 0 then F32.div (F32.ofInt 39) (F32.ofInt 10)
                  else F32.ofInt 7) 0 emptyOut).Odata_u
      ∧ (saveFile ieee32 (quantConfig 1)
                (fun i j => if i = 0 ∧ j = 0 then F32.div (F32.ofInt 401) (F32.ofInt 2)
                  else if i = 1 ∧ j = 0 then F32.div (F32.ofInt 39) (F32.ofInt 10)
                  else F32.ofInt 7) 0 emptyOut).written
          = emptyOut.written ++ [(0, payload (voxelsOverTime (quantConfig 1))
              ((saveFile ieee32 (quantConfig 1)
                (fun i j => if i = 0 ∧ j = 0 then F32.div (F32.ofInt 401) (F32.ofInt 2)
                  else if i = 1 ∧ j = 0 then F32.div (F32.ofInt 39) (F32.ofInt 10)
                  else F32.ofInt 7) 0 emptyOut).Odata_u 0) OutElem.uchar)]
      ∧ (saveFile ieee32 (quantConfig 1)
            (fun i j => (intEncoding ieee32).toFloat
              ((saveFile ieee32 (quantConfig 1)
                (fun i j => if i = 0 ∧ j = 0 then F32.div (F32.ofInt 401) (F32.ofInt 2)
                  else if i = 1 ∧ j = 0 then F32.div (F32.ofInt 39) (F32.ofInt 10)
                  else F32.ofInt 7) 0 emptyOut).Odata_u i j))
            0 (saveFile ieee32 (quantConfig 1)
                (fun i j => if i = 0 ∧ j = 0 then F32.div (F32.ofInt 401) (F32.ofInt 2)
                  else if i = 1 ∧ j = 0 then F32.div (F32.ofInt 39) (F32.ofInt 10)
                  else F32.ofInt 7) 0 emptyOut)).written
          = (saveFile ieee32 (quantConfig 1)
                (fun i j => if i = 0 ∧ j = 0 then F32.div (F32.ofInt 401) (F32.ofInt 2)
                  else if i = 1 ∧ j = 0 then F32.div (F32.ofInt 39) (F32.ofInt 10)
                  else F32.ofInt 7) 0 emptyOut).written
            ++ [(0, payload (voxelsOverTime (quantConfig 1))
              ((saveFile ieee32 (quantConfig 1)
                (fun i j => if i = 0 ∧ j = 0 then F32.div (F32.ofInt 401) (F32.ofInt 2)
                  else if i = 1 ∧ j = 0 then F32.div (F32.ofInt 39) (F32.ofInt 10)
                  else F32.ofInt 7) 0 emptyOut).Odata_u 0) OutElem.uchar)])
    ∧ (List.range 2).map (fun (z : Nat) =>
          (saveFile ieee32 (quantConfig 1)
            (fun i j => if i = 0 ∧ j = 0 then F32.div (F32.ofInt 401) (F32.ofInt 2)
              else if i = 1 ∧ j = 0 then F32.div (F32.ofInt 39) (F32.ofInt 10)
              else F32.ofInt 7) 0 emptyOut).Odata_u (z : Int) 0)
        = [200, 3] :=
  ⟨by decide,
   requantize_uchar (quantConfig 1)
     (fun i j => if i = 0 ∧ j = 0 then F32.div (F32.ofInt 401) (F32.ofInt 2)
       else if i = 1 ∧ j = 0 then F32.div (F32.ofInt 39) (F32.ofInt 10)
       else F32.ofInt 7) 0 emptyOut (by decide),
   by decide⟩

/-! ## The time-series display and the StdDev loop: claims C13 and C14 -/

/-- C13 fails on the code.  In the end-to-end scenario (float buffer `[1,2,3,4,5,6]`,
`NumberVoxels = 2`, `T = tmax = 3`) the series of voxel `ll = 0` is 1, 3, 5 and that of
voxel `ll = 1` is 2, 4, 6, but `printTS` prints the records for the time indices 0, 1, 2
with the intensities 1, 1, 1, respectively 2, 2, 2: every record carries `(int)(a[ll])`,
the sample at time 0. -/
theorem printTS_at_failing_input :
    seriesDispatch ieee32 (seriesScenario 0)
      = [Line.header, Line.record 0 0 0 0 0 1, Line.record 0 0 0 0 1 1,
          Line.record 0 0 0 0 2 1]
    ∧ printTS (floatEncoding ieee32) 0 0 0 3 1 (floatBuffer [1, 2, 3, 4, 5, 6])
      = [Line.header, Line.record 1 0 0 0 0 2, Line.record 1 0 0 0 1 2,
          Line.record 1 0 0 0 2 2]
    ∧ (List.range 3).map (fun (k : Nat) =>
          (floatEncoding ieee32).toInt (floatBuffer [1, 2, 3, 4, 5, 6] (0 + (k : Int) * 2)))
        = [1, 3, 5]
    ∧ (List.range 3).map (fun (k : Nat) =>
          (floatEncoding ieee32).toInt (floatBuffer [1, 2, 3, 4, 5, 6] (1 + (k : Int) * 2)))
        = [2, 4, 6] := by
  decide

/-- C14 fails on the code.  Four float files of dimensions `(4,1,1,2)`, file `k` holding
`10k+1, ..., 10k+8`: `NumberVoxels = 4` and no sample is zero.  With `stat_type = 1` the loop
visits `z = 0, 1, 2, 3` and assigns `Odata_f[z][0]` for each of them; with `stat_type = 2`
the loop bound is `NumberVoxels/size_Dim[Num_of_Dims-1] = 2`, so only `z = 0, 1` are
visited and `Odata_f[2][0]`, `Odata_f[3][0]` keep their initial value, although the
standard deviation of file 0 at voxels 2 and 3 is 2. -/
theorem sdDispatch_at_failing_input :
    voxelsOverTime (fourFiles 2 [11, 12, 13, 14, 15, 16, 17, 18]) = 2
    ∧ (fourFiles 2 [11, 12, 13, 14, 15, 16, 17, 18]).NumberVoxels = 4
    ∧ (List.range 4).map (fun (z : Nat) =>
          (statStage ieee32 (fourFiles 1 [11, 12, 13, 14, 15, 16, 17, 18])
            (fun _ _ => F32.ofInt (-1))).1 (z : Int) 0)
        = [F32.ofInt 3, F32.ofInt 4, F32.ofInt 5, F32.ofInt 6]
    ∧ (List.range 4).map (fun (z : Nat) =>
          (statStage ieee32 (fourFiles 2 [11, 12, 13, 14, 15, 16, 17, 18])
            (fun _ _ => F32.ofInt (-1))).1 (z : Int) 0)
        = [F32.ofInt 2, F32.ofInt 2, F32.ofInt (-1), F32.ofInt (-1)]
    ∧ (List.range 4).map (fun (z : Nat) =>
          getSD ieee32 (floatEncoding ieee32)
            ((fourFiles 2 [11, 12, 13, 14, 15, 16, 17, 18]).Idata_f 0) 4 (dimsOf 4 1 1 2) 4
            (z : Int))
        = [F32.ofInt 2, F32.ofInt 2, F32.ofInt 2, F32.ofInt 2] := by
  decide

/-! ## More facts about the reducers, for any float arithmetic -/

/-- The value of `getSD` when the time extent is 1 and the sample is nonzero, for any float
arithmetic: the mean is short-circuited to 0, the counter is 1, and the result is
`sqrt((0 + (s - 0) * (s - 0)) / 1)`. -/
theorem getSD_single_sample_eq {F S : Type} (ops : FloatOps F) (enc : Encoding F S)
    (a : Int → S) (NumberVoxels : Int) (size_Dim : Int → Int) (Num_of_Dims : Int) (z : Int)
    (hT : size_Dim (Num_of_Dims - 1) = 1) (hz : enc.nonzero (a z) = true) :
    getSD ops enc a NumberVoxels size_Dim Num_of_Dims z
      = ops.sqrt (ops.div (ops.add (ops.ofInt 0)
          (ops.mul (ops.sub (enc.toFloat (a z)) (ops.ofInt 0))
                   (ops.sub (enc.toFloat (a z)) (ops.ofInt 0)))) (ops.ofInt 1)) := by
  have hT' : size_Dim (Num_of_Dims - 1) = ((1 : Nat) : Int) := by simpa using hT
  rw [getSD_eq ops enc a NumberVoxels size_Dim Num_of_Dims z 1 hT',
    meanPass_nonzero ops enc a NumberVoxels size_Dim Num_of_Dims z 1 hT' hz]
  simp [populationSD, finishMean, fsum, series, List.range_succ]

/-! ## Rounding -/

theorem two_zpow_pos (k : Int) : (0 : ℚ) < 2 ^ k := zpow_pos (by norm_num) k

theorem two_zpow_add (a b : Int) : (2 : ℚ) ^ (a + b) = 2 ^ a * 2 ^ b :=
  zpow_add₀ (by norm_num) a b

theorem two_zpow_le {a b : Int} (h : a ≤ b) : (2 : ℚ) ^ a ≤ 2 ^ b :=
  zpow_le_zpow_right₀ (by norm_num) h

theorem two_zpow_lt {a b : Int} (h : a < b) : (2 : ℚ) ^ a < 2 ^ b :=
  zpow_lt_zpow_right₀ (by norm_num) h

theorem two_zpow_succ (a : Int) : (2 : ℚ) ^ (a + 1) = 2 * 2 ^ a := by
  rw [two_zpow_add, zpow_one, mul_comm]

theorem two_zpow_pred (a : Int) : (2 : ℚ) ^ (a - 1) = 2 ^ a / 2 := by
  rw [zpow_sub₀ (by norm_num), zpow_one]

theorem two_zpow_toNat (a : Int) (h : 0 ≤ a) : ((2 ^ a.toNat : Nat) : ℚ) = 2 ^ a := by
  rw [Nat.cast_pow, ← zpow_natCast, Int.toNat_of_nonneg h]
  rfl

theorem two_pow_toNat (a : Int) (h : 0 ≤ a) : (2 : ℚ) ^ a.toNat = 2 ^ a := by
  rw [← zpow_natCast, Int.toNat_of_nonneg h]

theorem bitLenAux_zero (fuel : Nat) : bitLenAux fuel 0 = 0 := by
  cases fuel <;> rfl

theorem bitLenAux_spec : ∀ (fuel n : Nat), n ≤ fuel → 0 < n →
    0 < bitLenAux fuel n ∧ 2 ^ (bitLenAux fuel n - 1) ≤ n ∧ n < 2 ^ (bitLenAux fuel n) := by
  intro fuel
  induction fuel with
  | zero => intro n h1 h2; omega
  | succ k ih =>
    intro n h1 h2
    have hn : n ≠ 0 := by omega
    simp only [bitLenAux, if_neg hn]
    by_cases h : n / 2 = 0
    · have : n = 1 := by omega
      subst this
      rw [h, bitLenAux_zero]
      simp
    · obtain ⟨hb, hlo, hhi⟩ := ih (n / 2) (by omega) (by omega)
      have e1 : 1 + bitLenAux k (n / 2) - 1 = (bitLenAux k (n / 2) - 1) + 1 := by omega
      have e2 : 1 + bitLenAux k (n / 2) = bitLenAux k (n / 2) + 1 := by omega
      refine ⟨by omega, ?_, ?_⟩
      · rw [e1, pow_succ]; omega
      · rw [e2, pow_succ]; omega

theorem bitLen_spec (n : Nat) (h : 0 < n) :
    0 < bitLen n ∧ 2 ^ (bitLen n - 1) ≤ n ∧ n < 2 ^ (bitLen n) :=
  bitLenAux_spec n n (le_refl n) h

/-- The bounds of `bitLen` on the rationals. -/
theorem bitLen_spec_rat (n : Nat) (h : 0 < n) :
    (2 : ℚ) ^ ((bitLen n : Int) - 1) ≤ n ∧ (n : ℚ) < 2 ^ (bitLen n : Int) := by
  obtain ⟨h0, h1, h2⟩ := bitLen_spec n h
  constructor
  · have : ((bitLen n : Int) - 1) = ((bitLen n - 1 : Nat) : Int) := by omega
    rw [this, zpow_natCast]
    exact_mod_cast h1
  · rw [zpow_natCast]
    exact_mod_cast h2

theorem roundExp_spec (p q : Nat) (hp : 0 < p) (hq : 0 < q) :
    (2 : ℚ) ^ (F32.roundExp p q) ≤ (p : ℚ) / q ∧ (p : ℚ) / q < 2 ^ (F32.roundExp p q + 1) := by
  obtain ⟨p1, p2⟩ := bitLen_spec_rat p hp
  obtain ⟨q1, q2⟩ := bitLen_spec_rat q hq
  have hq' : (0 : ℚ) < q := by exact_mod_cast hq
  have hp' : (0 : ℚ) < p := by exact_mod_cast hp
  have hge : (if 0 ≤ (bitLen p : Int) - (bitLen q : Int)
        then decide (q * 2 ^ ((bitLen p : Int) - (bitLen q : Int)).toNat ≤ p)
        else decide (q ≤ p * 2 ^ (-((bitLen p : Int) - (bitLen q : Int))).toNat)) = true
      ↔ (2 : ℚ) ^ ((bitLen p : Int) - (bitLen q : Int)) ≤ (p : ℚ) / q := by
    rw [le_div_iff₀ hq']
    by_cases hL : 0 ≤ (bitLen p : Int) - (bitLen q : Int)
    · rw [if_pos hL, decide_eq_true_iff, ← two_zpow_toNat _ hL, mul_comm]
      exact_mod_cast Iff.rfl
    · rw [if_neg hL, decide_eq_true_iff]
      have hL' : 0 ≤ -((bitLen p : Int) - (bitLen q : Int)) := by omega
      have e : (2 : ℚ) ^ ((bitLen p : Int) - (bitLen q : Int))
          = (((2 ^ (-((bitLen p : Int) - (bitLen q : Int))).toNat : Nat) : ℚ))⁻¹ := by
        rw [two_zpow_toNat _ hL', zpow_neg, inv_inv]
      rw [e, inv_mul_le_iff₀ (by positivity)]
      rw [mul_comm]
      exact_mod_cast Iff.rfl
  have hlow : (2 : ℚ) ^ ((bitLen p : Int) - (bitLen q : Int) - 1) ≤ (p : ℚ) / q := by
    rw [le_div_iff₀ hq']
    have e : (2 : ℚ) ^ ((bitLen p : Int) - (bitLen q : Int) - 1)
        = 2 ^ ((bitLen p : Int) - 1) * (2 ^ (bitLen q : Int))⁻¹ := by
      rw [← zpow_neg, ← two_zpow_add]
      congr 1
      ring
    rw [e]
    have := two_zpow_pos (bitLen q : Int)
    calc (2 : ℚ) ^ ((bitLen p : Int) - 1) * (2 ^ (bitLen q : Int))⁻¹ * q
        ≤ 2 ^ ((bitLen p : Int) - 1) * (2 ^ (bitLen q : Int))⁻¹ * 2 ^ (bitLen q : Int) := by
          apply mul_le_mul_of_nonneg_left q2.le
          positivity
      _ = 2 ^ ((bitLen p : Int) - 1) := by field_simp
      _ ≤ p := p1
  have hhigh : (p : ℚ) / q < 2 ^ ((bitLen p : Int) - (bitLen q : Int) + 1) := by
    rw [div_lt_iff₀ hq']
    have e : (2 : ℚ) ^ ((bitLen p : Int) - (bitLen q : Int) + 1)
        = 2 ^ (bitLen p : Int) * (2 ^ ((bitLen q : Int) - 1))⁻¹ := by
      rw [← zpow_neg, ← two_zpow_add]
      congr 1
      ring
    rw [e]
    have := two_zpow_pos ((bitLen q : Int) - 1)
    have hp2 := two_zpow_pos (bitLen p : Int)
    calc (p : ℚ) < 2 ^ (bitLen p : Int) := p2
      _ = 2 ^ (bitLen p : Int) * (2 ^ ((bitLen q : Int) - 1))⁻¹ * 2 ^ ((bitLen q : Int) - 1) := by
          field_simp
      _ ≤ 2 ^ (bitLen p : Int) * (2 ^ ((bitLen q : Int) - 1))⁻¹ * q := by
          apply mul_le_mul_of_nonneg_left q1
          positivity
  unfold F32.roundExp
  simp only []
  generalize (if 0 ≤ (bitLen p : Int) - (bitLen q : Int)
        then decide (q * 2 ^ ((bitLen p : Int) - (bitLen q : Int)).toNat ≤ p)
        else decide (q ≤ p * 2 ^ (-((bitLen p : Int) - (bitLen q : Int))).toNat)) = g at hge
  cases g
  · simp only [Bool.false_eq_true, if_false]
    refine ⟨hlow, ?_⟩
    rw [sub_add_cancel]
    exact not_le.mp (fun h => absurd (hge.mpr h) (by simp))
  · simp only [if_true]
    exact ⟨hge.mp rfl, hhigh⟩

theorem roundHalfEven_spec (num den : Nat) (hden : 0 < den) :
    |(F32.roundHalfEven num den : ℚ) - (num : ℚ) / den| ≤ 1 / 2 := by
  have hd : (0 : ℚ) < den := by exact_mod_cast hden
  have hnum : (num : ℚ) = den * (num / den : Nat) + (num % den : Nat) := by
    exact_mod_cast (Nat.div_add_mod num den).symm
  have hdiv : (num : ℚ) / den = (num / den : Nat) + ((num % den : Nat) : ℚ) / den := by
    rw [hnum]
    field_simp
    ring
  have hr0 : (0 : ℚ) ≤ ((num % den : Nat) : ℚ) / den := by positivity
  have hr1 : ((num % den : Nat) : ℚ) / den < 1 := by
    rw [div_lt_one hd]
    exact_mod_cast Nat.mod_lt num hden
  rw [hdiv, abs_le]
  unfold F32.roundHalfEven
  simp only []
  by_cases h1 : 2 * (num % den) < den
  · rw [if_pos h1]
    have : ((num % den : Nat) : ℚ) / den < 1 / 2 := by
      rw [div_lt_iff₀ hd]
      have : ((2 * (num % den) : Nat) : ℚ) < den := by exact_mod_cast h1
      push_cast at this
      linarith
    constructor <;> linarith
  · rw [if_neg h1]
    by_cases h2 : den < 2 * (num % den)
    · rw [if_pos h2]
      have : 1 / 2 < ((num % den : Nat) : ℚ) / den := by
        rw [lt_div_iff₀ hd]
        have : (den : ℚ) < ((2 * (num % den) : Nat) : ℚ) := by exact_mod_cast h2
        push_cast at this
        linarith
      push_cast
      constructor <;> linarith
    · rw [if_neg h2]
      have h3 : 2 * (num % den) = den := by omega
      have : ((num % den : Nat) : ℚ) / den = 1 / 2 := by
        rw [div_eq_iff hd.ne']
        have : ((2 * (num % den) : Nat) : ℚ) = den := by exact_mod_cast h3
        push_cast at this
        linarith
      split_ifs
      · constructor <;> linarith
      · push_cast
        constructor <;> linarith

theorem roundRat_eq (neg : Bool) (p q : Nat) (hp : p ≠ 0) :
    F32.roundRat neg p q
      = F32.pack neg
          (F32.roundHalfEven
            (if 0 ≤ max (F32.roundExp p q) (-126) - 23 then p
              else p * 2 ^ (-(max (F32.roundExp p q) (-126) - 23)).toNat)
            (if 0 ≤ max (F32.roundExp p q) (-126) - 23
              then q * 2 ^ (max (F32.roundExp p q) (-126) - 23).toNat else q))
          (max (F32.roundExp p q) (-126) - 23) := by
  unfold F32.roundRat
  rw [if_neg hp]
  rfl

/-- The result of `roundRat` is a rounding of `p / q`. -/
theorem roundRat_rounded (neg : Bool) (p q : Nat) (hp : 0 < p) (hq : 0 < q) :
    F32.Rounded ((p : ℚ) / q) neg (F32.roundRat neg p q) := by
  obtain ⟨hE1, hE2⟩ := roundExp_spec p q hp hq
  have hq' : (0 : ℚ) < q := by exact_mod_cast hq
  have hp' : (0 : ℚ) < p := by exact_mod_cast hp
  rw [roundRat_eq neg p q hp.ne']
  generalize hE : F32.roundExp p q = E at hE1 hE2 ⊢
  generalize he : max E (-126) - 23 = e
  have he0 : -149 ≤ e := by omega
  have hEe : E + 1 ≤ e + 24 := by omega
  refine ⟨e, _, he0, ?_, ?_, ?_, rfl⟩
  · exact lt_of_lt_of_le hE2 (two_zpow_le hEe)
  · intro h
    have : e + 23 = E := by omega
    rw [this]
    exact hE1
  · have h2e := two_zpow_pos e
    have key : ∀ (num den : Nat), 0 < den → (num : ℚ) / den = (p : ℚ) / q / 2 ^ e →
        |(F32.roundHalfEven num den : ℚ) * 2 ^ e - (p : ℚ) / q| ≤ 2 ^ (e - 1) := by
      intro num den hden hnd
      have h := roundHalfEven_spec num den hden
      rw [hnd] at h
      have e1 : (F32.roundHalfEven num den : ℚ) * 2 ^ e - (p : ℚ) / q
          = ((F32.roundHalfEven num den : ℚ) - (p : ℚ) / q / 2 ^ e) * 2 ^ e := by
        field_simp
        ring
      rw [e1, abs_mul, abs_of_pos h2e, two_zpow_pred]
      calc |(F32.roundHalfEven num den : ℚ) - (p : ℚ) / q / 2 ^ e| * 2 ^ e
          ≤ 1 / 2 * 2 ^ e := mul_le_mul_of_nonneg_right h h2e.le
        _ = 2 ^ e / 2 := by ring
    by_cases h0 : 0 ≤ e
    · rw [if_pos h0, if_pos h0]
      apply key
      · positivity
      · push_cast
        rw [two_pow_toNat e h0]
        field_simp
    · rw [if_neg h0, if_neg h0]
      apply key _ _ hq
      push_cast
      rw [two_pow_toNat (-e) (by omega), zpow_neg]
      field_simp
      left
      ring

theorem two_zpow_24 : (2 : ℚ) ^ (24 : Int) = 16777216 := by norm_num
theorem two_zpow_23 : (2 : ℚ) ^ (23 : Int) = 8388608 := by norm_num

/-- The value `N * 2 ^ f` on the quantum `2 ^ e`, `e ≤ f`, is the integer `N * 2 ^ (f - e)`. -/
theorem scale_to_quantum (N : Nat) (e f : Int) (h : e ≤ f) :
    ((N * 2 ^ (f - e).toNat : Nat) : ℚ) * 2 ^ e = (N : ℚ) * 2 ^ f := by
  push_cast
  rw [two_pow_toNat (f - e) (by omega), mul_assoc, ← two_zpow_add]
  congr 2
  ring

/-- Two integers whose multiples of a quantum are less than a quantum apart are equal. -/
theorem nat_le_of_quantum (a b : Nat) (e : Int) (h : (a : ℚ) * 2 ^ e < ((b : ℚ) + 1) * 2 ^ e) :
    a ≤ b := by
  have h2 := two_zpow_pos e
  have : (a : ℚ) < (b : ℚ) + 1 := lt_of_mul_lt_mul_right h h2.le
  have : (a : ℚ) < ((b + 1 : Nat) : ℚ) := by push_cast; exact this
  have := Nat.cast_lt.mp this
  omega

/-- The significand chosen by a rounding is at most `2 ^ 24`, and at least `2 ^ 23` above
the subnormal range. -/
theorem rounded_mant_bounds (x : ℚ) (e : Int) (n : Nat) (h1 : x < 2 ^ (e + 24))
    (h2 : -149 < e → (2 : ℚ) ^ (e + 23) ≤ x) (h3 : |(n : ℚ) * 2 ^ e - x| ≤ 2 ^ (e - 1)) :
    n ≤ 2 ^ 24 ∧ (-149 < e → 2 ^ 23 ≤ n) := by
  have hpos := two_zpow_pos e
  rw [abs_le, two_zpow_pred] at h3
  constructor
  · apply nat_le_of_quantum n (2 ^ 24) e
    rw [two_zpow_add, two_zpow_24] at h1
    push_cast
    nlinarith
  · intro he
    have h2' := h2 he
    rw [two_zpow_add, two_zpow_23] at h2'
    apply nat_le_of_quantum (2 ^ 23) n e
    push_cast
    nlinarith

theorem pack_normal (neg : Bool) (n : Nat) (e : Int) (h0 : 2 ^ 23 ≤ n) (h1 : n ≤ 2 ^ 24)
    (he : -149 ≤ e) :
    F32.pack neg n e = F32.inf neg
    ∨ ∃ n' e', F32.pack neg n e = F32.finite neg n' e' ∧ F32.Normal n' e'
        ∧ (n' : ℚ) * 2 ^ e' = (n : ℚ) * 2 ^ e := by
  unfold F32.pack
  simp only []
  by_cases hn : n = 2 ^ 24
  · rw [if_pos hn, if_pos hn]
    by_cases h : 104 < e + 1
    · left; rw [if_pos h]
    · right
      rw [if_neg h]
      refine ⟨2 ^ 23, e + 1, rfl, ⟨le_refl _, by norm_num, by omega, by omega⟩, ?_⟩
      rw [hn, two_zpow_succ]
      push_cast
      ring
  · rw [if_neg hn, if_neg hn]
    by_cases h : 104 < e
    · left; rw [if_pos h]
    · right
      rw [if_neg h]
      exact ⟨n, e, rfl, ⟨h0, by omega, he, by omega⟩, rfl⟩

/-- A rounding of a number that is at least the normal number `N * 2 ^ f` is an infinity
or a normal number that is at least `N * 2 ^ f`. -/
theorem rounded_ge (x : ℚ) (neg : Bool) (r : F32) (h : F32.Rounded x neg r) (N : Nat) (f : Int)
    (hN : F32.Normal N f) (hx : (N : ℚ) * 2 ^ f ≤ x) :
    r = F32.inf neg
    ∨ ∃ n' e', r = F32.finite neg n' e' ∧ F32.Normal n' e'
        ∧ (N : ℚ) * 2 ^ f ≤ (n' : ℚ) * 2 ^ e' := by
  obtain ⟨e, n, he, h1, h2, h3, rfl⟩ := h
  obtain ⟨hn1, hn2⟩ := rounded_mant_bounds x e n h1 h2 h3
  obtain ⟨N0, N1, f0, f1⟩ := hN
  have hpos := two_zpow_pos e
  have h3' := h3
  rw [abs_le, two_zpow_pred] at h3'
  have hcmp : 2 ^ 23 ≤ n ∧ (N : ℚ) * 2 ^ f ≤ (n : ℚ) * 2 ^ e := by
    by_cases hfe : e ≤ f
    · have hK := scale_to_quantum N e f hfe
      have hKn : N * 2 ^ (f - e).toNat ≤ n := by
        apply nat_le_of_quantum _ _ e
        rw [hK]
        nlinarith
      constructor
      · have : N ≤ N * 2 ^ (f - e).toNat := Nat.le_mul_of_pos_right N (by positivity)
        omega
      · rw [← hK]
        apply mul_le_mul_of_nonneg_right _ hpos.le
        exact_mod_cast hKn
    · have he' : -149 < e := by omega
      have hn23 := hn2 he'
      refine ⟨hn23, ?_⟩
      have hNlt : (N : ℚ) < 2 ^ (24 : Int) := by rw [two_zpow_24]; exact_mod_cast N1
      have hle : (2 : ℚ) ^ (f + 24) ≤ 2 ^ (e + 23) := two_zpow_le (by omega)
      have hf := two_zpow_pos f
      calc (N : ℚ) * 2 ^ f ≤ 2 ^ (24 : Int) * 2 ^ f := by
            apply mul_le_mul_of_nonneg_right hNlt.le hf.le
        _ = 2 ^ (f + 24) := by rw [two_zpow_add, mul_comm]
        _ ≤ 2 ^ (e + 23) := hle
        _ = 2 ^ (23 : Int) * 2 ^ e := by rw [two_zpow_add, mul_comm]
        _ ≤ (n : ℚ) * 2 ^ e := by
            apply mul_le_mul_of_nonneg_right _ hpos.le
            rw [two_zpow_23]
            exact_mod_cast hn23
  rcases pack_normal neg n e hcmp.1 hn1 he with hp | ⟨n', e', hp, hnorm, hval⟩
  · exact Or.inl hp
  · exact Or.inr ⟨n', e', hp, hnorm, by rw [hval]; exact hcmp.2⟩

/-- A rounding of a number that is at most the normal number `N * 2 ^ f` is finite and at
most `N * 2 ^ f`. -/
theorem rounded_le (x : ℚ) (neg : Bool) (r : F32) (h : F32.Rounded x neg r) (N : Nat) (f : Int)
    (hN : F32.Normal N f) (hx : x ≤ (N : ℚ) * 2 ^ f) :
    ∃ n' e', r = F32.finite neg n' e' ∧ (n' : ℚ) * 2 ^ e' ≤ (N : ℚ) * 2 ^ f
      ∧ n' < 2 ^ 24 ∧ -149 ≤ e' ∧ e' ≤ 104 := by
  obtain ⟨e, n, he, h1, h2, h3, rfl⟩ := h
  obtain ⟨hn1, hn2⟩ := rounded_mant_bounds x e n h1 h2 h3
  obtain ⟨N0, N1, f0, f1⟩ := hN
  have hpos := two_zpow_pos e
  have hf := two_zpow_pos f
  have h3' := h3
  rw [abs_le, two_zpow_pred] at h3'
  have hNlt : (N : ℚ) < 2 ^ (24 : Int) := by rw [two_zpow_24]; exact_mod_cast N1
  have hxlt : x < 2 ^ (f + 24) := by
    calc x ≤ (N : ℚ) * 2 ^ f := hx
      _ < 2 ^ (24 : Int) * 2 ^ f := mul_lt_mul_of_pos_right hNlt hf
      _ = 2 ^ (f + 24) := by rw [two_zpow_add, mul_comm]
  have hfe : e ≤ f := by
    by_contra hc
    have he' : -149 < e := by omega
    have := h2 he'
    have hle : (2 : ℚ) ^ (f + 24) ≤ 2 ^ (e + 23) := two_zpow_le (by omega)
    linarith
  have hK := scale_to_quantum N e f hfe
  have hnK : n ≤ N * 2 ^ (f - e).toNat := by
    apply nat_le_of_quantum _ _ e
    rw [← hK] at hx
    push_cast at hx ⊢
    nlinarith
  have hval : (n : ℚ) * 2 ^ e ≤ (N : ℚ) * 2 ^ f := by
    rw [← hK]
    apply mul_le_mul_of_nonneg_right _ hpos.le
    exact_mod_cast hnK
  have hlt : (n : ℚ) * 2 ^ e < 2 ^ (f + 24) := by
    calc (n : ℚ) * 2 ^ e ≤ (N : ℚ) * 2 ^ f := hval
      _ < 2 ^ (24 : Int) * 2 ^ f := mul_lt_mul_of_pos_right hNlt hf
      _ = 2 ^ (f + 24) := by rw [two_zpow_add, mul_comm]
  unfold F32.pack
  simp only []
  by_cases hn : n = 2 ^ 24
  · rw [if_pos hn, if_pos hn]
    have hef : e < f := by
      have : (2 : ℚ) ^ (e + 24) < 2 ^ (f + 24) := by
        calc (2 : ℚ) ^ (e + 24) = (n : ℚ) * 2 ^ e := by
              rw [hn, two_zpow_add, two_zpow_24]; push_cast; ring
          _ < 2 ^ (f + 24) := hlt
      have := (zpow_lt_zpow_iff_right₀ (by norm_num : (1 : ℚ) < 2)).mp this
      omega
    rw [if_neg (by omega)]
    refine ⟨2 ^ 23, e + 1, rfl, ?_, by norm_num, by omega, by omega⟩
    have : ((2 ^ 23 : Nat) : ℚ) * 2 ^ (e + 1) = (n : ℚ) * 2 ^ e := by
      rw [hn, two_zpow_succ]; push_cast; ring
    rw [this]
    exact hval
  · rw [if_neg hn, if_neg hn]
    have he104 : e ≤ 104 := by
      by_contra hc
      have he' : -149 < e := by omega
      have := h2 he'
      have hle : (2 : ℚ) ^ (f + 24) ≤ 2 ^ (e + 23) := two_zpow_le (by omega)
      linarith
    rw [if_neg (by omega)]
    exact ⟨n, e, rfl, hval, by omega, he, he104⟩

/-- A number strictly within half a quantum of the normal number `N * 2 ^ f`, and not
below its binade, rounds to `N * 2 ^ f`. -/
theorem rounded_near (x : ℚ) (neg : Bool) (r : F32) (h : F32.Rounded x neg r) (N : Nat) (f : Int)
    (hN : F32.Normal N f) (hlow : (2 : ℚ) ^ (f + 23) ≤ x)
    (hx : |x - (N : ℚ) * 2 ^ f| < 2 ^ (f - 1)) :
    r = F32.finite neg N f := by
  obtain ⟨e, n, he, h1, h2, h3, rfl⟩ := h
  obtain ⟨N0, N1, f0, f1⟩ := hN
  have hf := two_zpow_pos f
  rw [abs_lt, two_zpow_pred] at hx
  have hN' : (N : ℚ) + 1 ≤ 2 ^ (24 : Int) := by
    rw [two_zpow_24]
    have : N + 1 ≤ 2 ^ 24 := by omega
    exact_mod_cast this
  have hxlt : x < 2 ^ (f + 24) := by
    rw [two_zpow_add]
    nlinarith
  have hfe : f ≤ e := by
    have : (2 : ℚ) ^ (f + 23) < 2 ^ (e + 24) := lt_of_le_of_lt hlow h1
    have := (zpow_lt_zpow_iff_right₀ (by norm_num : (1 : ℚ) < 2)).mp this
    omega
  have hef : e ≤ f := by
    by_contra hc
    have he' : -149 < e := by omega
    have := h2 he'
    have hle : (2 : ℚ) ^ (f + 24) ≤ 2 ^ (e + 23) := two_zpow_le (by omega)
    linarith
  have heq : e = f := by omega
  subst heq
  rw [abs_le, two_zpow_pred] at h3
  have hnN : n = N := by
    apply le_antisymm
    · apply nat_le_of_quantum _ _ e
      nlinarith
    · apply nat_le_of_quantum _ _ e
      nlinarith
  subst hnN
  unfold F32.pack
  simp only []
  rw [if_neg (by omega), if_neg (by omega), if_neg (by omega)]

/-- A normal number rounds to itself. -/
theorem rounded_exact (x : ℚ) (neg : Bool) (r : F32) (h : F32.Rounded x neg r) (N : Nat) (f : Int)
    (hN : F32.Normal N f) (hx : x = (N : ℚ) * 2 ^ f) :
    r = F32.finite neg N f := by
  apply rounded_near x neg r h N f hN
  · rw [hx, two_zpow_add, mul_comm, two_zpow_23]
    apply mul_le_mul_of_nonneg_right _ (two_zpow_pos f).le
    exact_mod_cast hN.1
  · rw [hx, sub_self, abs_zero]
    exact two_zpow_pos _

/-- The error of a rounding is at most half the quantum of any binade that is not below
the number. -/
theorem rounded_err (x : ℚ) (neg : Bool) (r : F32) (h : F32.Rounded x neg r) (k : Int)
    (hk : -149 ≤ k) (hx : x < 2 ^ (k + 24)) (n' : Nat) (e' : Int)
    (hr : r = F32.finite neg n' e') :
    |(n' : ℚ) * 2 ^ e' - x| ≤ 2 ^ (k - 1) := by
  obtain ⟨e, n, he, h1, h2, h3, rfl⟩ := h
  have hek : e ≤ k := by
    by_contra hc
    have he' : -149 < e := by omega
    have := h2 he'
    have hle : (2 : ℚ) ^ (k + 24) ≤ 2 ^ (e + 23) := two_zpow_le (by omega)
    linarith
  have hval : (n' : ℚ) * 2 ^ e' = (n : ℚ) * 2 ^ e := by
    unfold F32.pack at hr
    simp only [] at hr
    by_cases hn : n = 2 ^ 24
    · rw [if_pos hn, if_pos hn] at hr
      split_ifs at hr
      injection hr with _ h4 h5
      rw [← h4, ← h5, hn, two_zpow_succ]
      push_cast
      ring
    · rw [if_neg hn, if_neg hn] at hr
      split_ifs at hr
      injection hr with _ h4 h5
      rw [← h4, ← h5]
  rw [hval]
  exact le_trans h3 (two_zpow_le (by omega))

/-! ## The operations as roundings -/

theorem roundDyadic_zero (neg : Bool) (e : Int) : F32.roundDyadic neg 0 e = F32.zero neg := by
  unfold F32.roundDyadic F32.roundRat
  split_ifs <;> simp_all

theorem roundDyadic_rounded (neg : Bool) (p : Nat) (e : Int) (hp : 0 < p) :
    F32.Rounded ((p : ℚ) * 2 ^ e) neg (F32.roundDyadic neg p e) := by
  unfold F32.roundDyadic
  by_cases h : 0 ≤ e
  · rw [if_pos h]
    have e1 : (p : ℚ) * 2 ^ e = ((p * 2 ^ e.toNat : Nat) : ℚ) / ((1 : Nat) : ℚ) := by
      push_cast
      rw [two_pow_toNat e h, div_one]
    rw [e1]
    exact roundRat_rounded neg _ 1 (by positivity) (by norm_num)
  · rw [if_neg h]
    have e1 : (p : ℚ) * 2 ^ e = (p : ℚ) / ((2 ^ (-e).toNat : Nat) : ℚ) := by
      push_cast
      rw [two_pow_toNat (-e) (by omega), zpow_neg, div_eq_mul_inv, inv_inv]
    rw [e1]
    exact roundRat_rounded neg p _ hp (by positivity)

theorem signedMag_cast (s : Bool) (m : Nat) :
    ((F32.signedMag s m : Int) : ℚ) = if s then -(m : ℚ) else (m : ℚ) := by
  unfold F32.signedMag
  split_ifs <;> simp

theorem toRat_finite (s : Bool) (m : Nat) (e : Int) :
    (F32.finite s m e).toRat = (if s then -(m : ℚ) else (m : ℚ)) * 2 ^ e := by
  show ((F32.signedMag s m : Int) : ℚ) * 2 ^ e = _
  rw [signedMag_cast]

theorem signedMag_scale (s : Bool) (m : Nat) (e g : Int) (h : g ≤ e) :
    ((F32.signedMag s (m * 2 ^ (e - g).toNat) : Int) : ℚ) * 2 ^ g = (F32.finite s m e).toRat := by
  rw [toRat_finite, signedMag_cast]
  have := scale_to_quantum m g e h
  push_cast at this ⊢
  split_ifs
  · rw [neg_mul, neg_mul, this]
  · rw [this]

/-- Addition of finite numbers is the rounding of the exact sum. -/
theorem add_finite_spec (s : Bool) (m : Nat) (e : Int) (t : Bool) (n : Nat) (f : Int) :
    ((F32.finite s m e).toRat + (F32.finite t n f).toRat = 0 →
        F32.add (F32.finite s m e) (F32.finite t n f) = F32.zero (s && t))
    ∧ ((F32.finite s m e).toRat + (F32.finite t n f).toRat ≠ 0 →
        F32.Rounded |(F32.finite s m e).toRat + (F32.finite t n f).toRat|
          (decide ((F32.finite s m e).toRat + (F32.finite t n f).toRat < 0))
          (F32.add (F32.finite s m e) (F32.finite t n f))) := by
  have hg := two_zpow_pos (min e f)
  have hS : ((F32.signedMag s (m * 2 ^ (e - min e f).toNat)
        + F32.signedMag t (n * 2 ^ (f - min e f).toNat) : Int) : ℚ) * 2 ^ (min e f)
      = (F32.finite s m e).toRat + (F32.finite t n f).toRat := by
    push_cast
    rw [add_mul, signedMag_scale s m e _ (min_le_left e f),
      signedMag_scale t n f _ (min_le_right e f)]
  generalize (F32.finite s m e).toRat + (F32.finite t n f).toRat = v at hS
  unfold F32.add
  simp only []
  generalize F32.signedMag s (m * 2 ^ (e - min e f).toNat)
        + F32.signedMag t (n * 2 ^ (f - min e f).toNat) = S at hS
  constructor
  · intro hv
    have : S = 0 := by
      rw [hv] at hS
      have := (mul_eq_zero.mp hS).resolve_right hg.ne'
      exact_mod_cast this
    rw [if_pos this]
  · intro hv
    have hS0 : S ≠ 0 := by
      intro h0
      rw [h0] at hS
      simp at hS
      exact hv hS.symm
    rw [if_neg hS0]
    have habs : |v| = (S.natAbs : ℚ) * 2 ^ (min e f) := by
      rw [← hS, abs_mul, abs_of_pos hg, Nat.cast_natAbs, Int.cast_abs]
    have hsign : decide (v < 0) = decide (S < 0) := by
      congr 1
      rw [← hS, eq_iff_iff]
      constructor
      · intro h
        have : ((S : Int) : ℚ) < 0 := by
          by_contra hc
          have := mul_nonneg (not_lt.mp hc) hg.le
          linarith
        exact_mod_cast this
      · intro h
        have : ((S : Int) : ℚ) < 0 := by exact_mod_cast h
        exact mul_neg_of_neg_of_pos this hg
    rw [habs, hsign]
    exact roundDyadic_rounded _ _ _ (Int.natAbs_pos.mpr hS0)

/-- Multiplication of finite numbers is the rounding of the exact product. -/
theorem mul_finite_spec (s : Bool) (m : Nat) (e : Int) (t : Bool) (n : Nat) (f : Int) :
    (m * n = 0 → F32.mul (F32.finite s m e) (F32.finite t n f) = F32.zero (xor s t))
    ∧ (m * n ≠ 0 →
        F32.Rounded (((m : ℚ) * 2 ^ e) * ((n : ℚ) * 2 ^ f)) (xor s t)
          (F32.mul (F32.finite s m e) (F32.finite t n f))) := by
  constructor
  · intro h
    show F32.roundDyadic (xor s t) (m * n) (e + f) = _
    rw [h, roundDyadic_zero]
  · intro h
    have e1 : ((m : ℚ) * 2 ^ e) * ((n : ℚ) * 2 ^ f) = ((m * n : Nat) : ℚ) * 2 ^ (e + f) := by
      rw [two_zpow_add]
      push_cast
      ring
    rw [e1]
    show F32.Rounded _ _ (F32.roundDyadic (xor s t) (m * n) (e + f))
    exact roundDyadic_rounded _ _ _ (Nat.pos_of_ne_zero h)

theorem roundRat_zero (neg : Bool) (q : Nat) : F32.roundRat neg 0 q = F32.zero neg := by
  unfold F32.roundRat
  rw [if_pos rfl]

/-- Division of finite numbers by a nonzero number is the rounding of the exact
quotient. -/
theorem div_finite_spec (s : Bool) (m : Nat) (e : Int) (t : Bool) (n : Nat) (f : Int)
    (hn : n ≠ 0) :
    (m = 0 → F32.div (F32.finite s m e) (F32.finite t n f) = F32.zero (xor s t))
    ∧ (m ≠ 0 →
        F32.Rounded (((m : ℚ) * 2 ^ e) / ((n : ℚ) * 2 ^ f)) (xor s t)
          (F32.div (F32.finite s m e) (F32.finite t n f))) := by
  unfold F32.div
  simp only []
  rw [if_neg hn]
  have hn' : (n : ℚ) ≠ 0 := by exact_mod_cast hn
  have he := two_zpow_pos e
  have hf := two_zpow_pos f
  constructor
  · intro h
    subst h
    split_ifs <;> simp [roundRat_zero]
  · intro h
    by_cases hef : 0 ≤ e - f
    · rw [if_pos hef]
      have e1 : ((m : ℚ) * 2 ^ e) / ((n : ℚ) * 2 ^ f)
          = ((m * 2 ^ (e - f).toNat : Nat) : ℚ) / (n : ℚ) := by
        push_cast
        rw [two_pow_toNat (e - f) hef, zpow_sub₀ (by norm_num)]
        field_simp
        ring
      rw [e1]
      exact roundRat_rounded _ _ _ (by positivity) (Nat.pos_of_ne_zero hn)
    · rw [if_neg hef]
      have e1 : ((m : ℚ) * 2 ^ e) / ((n : ℚ) * 2 ^ f)
          = (m : ℚ) / ((n * 2 ^ (f - e).toNat : Nat) : ℚ) := by
        push_cast
        rw [two_pow_toNat (f - e) (by omega), zpow_sub₀ (by norm_num)]
        field_simp
      rw [e1]
      exact roundRat_rounded _ _ _ (Nat.pos_of_ne_zero h) (by positivity)

/-- Every positive integer below `2 ^ 24` is a normal binary32 number. -/
theorem exists_normal_of_nat (k : Nat) (h0 : 0 < k) (h1 : k < 2 ^ 24) :
    ∃ N f, F32.Normal N f ∧ -23 ≤ f ∧ f ≤ 0 ∧ (N : ℚ) * 2 ^ f = k := by
  obtain ⟨hb0, hb1, hb2⟩ := bitLen_spec k h0
  have hb : bitLen k ≤ 24 := by
    by_contra hc
    have : 2 ^ 24 ≤ 2 ^ (bitLen k - 1) := Nat.pow_le_pow_right (by norm_num) (by omega)
    omega
  have e1 : 2 ^ (bitLen k - 1) * 2 ^ (24 - bitLen k) = 2 ^ 23 := by
    rw [← pow_add]
    congr 1
    omega
  have e2 : 2 ^ (bitLen k) * 2 ^ (24 - bitLen k) = 2 ^ 24 := by
    rw [← pow_add]
    congr 1
    omega
  have hpos : 0 < 2 ^ (24 - bitLen k) := by positivity
  refine ⟨k * 2 ^ (24 - bitLen k), (bitLen k : Int) - 24, ⟨?_, ?_, by omega, by omega⟩,
    by omega, by omega, ?_⟩
  · rw [← e1]
    exact Nat.mul_le_mul_right _ hb1
  · rw [← e2]
    exact Nat.mul_lt_mul_of_pos_right hb2 hpos
  · have : ((bitLen k : Int) - 24) = -((24 - bitLen k : Nat) : Int) := by omega
    rw [this, zpow_neg, zpow_natCast]
    push_cast
    field_simp

/-- The conversion of a nonzero `int` of magnitude below `2 ^ 24` is exact. -/
theorem ofInt_spec (k : Int) (hk : k ≠ 0) (hlt : |k| < 2 ^ 24) :
    ∃ N f, F32.Normal N f ∧ -23 ≤ f ∧ f ≤ 0 ∧ (N : ℚ) * 2 ^ f = |(k : ℚ)|
      ∧ F32.ofInt k = F32.finite (decide (k < 0)) N f := by
  have h0 : 0 < k.natAbs := Int.natAbs_pos.mpr hk
  have h1 : k.natAbs < 2 ^ 24 := by
    have : (k.natAbs : Int) < 2 ^ 24 := by rw [Int.natCast_natAbs]; exact hlt
    exact_mod_cast this
  obtain ⟨N, f, hN, hf0, hf1, hval⟩ := exists_normal_of_nat k.natAbs h0 h1
  have habs : ((k.natAbs : Nat) : ℚ) = |(k : ℚ)| := by
    rw [Nat.cast_natAbs, Int.cast_abs]
  refine ⟨N, f, hN, hf0, hf1, by rw [hval, habs], ?_⟩
  unfold F32.ofInt
  apply rounded_exact _ _ _ (roundDyadic_rounded _ _ 0 h0) N f hN
  rw [hval, zpow_zero, mul_one]

theorem isqrtAux_spec (N : Nat) : ∀ (b r : Nat), r * r ≤ N → N < (r + 2 ^ b) * (r + 2 ^ b) →
    isqrtAux N b r * isqrtAux N b r ≤ N ∧ N < (isqrtAux N b r + 1) * (isqrtAux N b r + 1) := by
  intro b
  induction b with
  | zero =>
    intro r h1 h2
    simpa [isqrtAux] using And.intro h1 h2
  | succ b ih =>
    intro r h1 h2
    unfold isqrtAux
    by_cases hc : (r + 2 ^ b) * (r + 2 ^ b) ≤ N
    · rw [if_pos hc]
      apply ih _ hc
      have : r + 2 ^ b + 2 ^ b = r + 2 ^ (b + 1) := by rw [pow_succ]; ring
      rw [this]
      exact h2
    · rw [if_neg hc]
      exact ih _ h1 (by omega)

theorem isqrt_spec (N : Nat) :
    isqrt N * isqrt N ≤ N ∧ N < (isqrt N + 1) * (isqrt N + 1) := by
  unfold isqrt
  apply isqrtAux_spec N _ 0 (by simp)
  rw [zero_add, ← pow_add]
  by_cases h0 : N = 0
  · subst h0
    positivity
  · obtain ⟨_, _, h⟩ := bitLen_spec N (by omega)
    apply lt_of_lt_of_le h
    apply Nat.pow_le_pow_right (by norm_num)
    omega

/-- The rational value that `sqrt` hands to the final rounding for the positive finite
number `m * 2 ^ e`, between the bounds that the integer square root gives. -/
theorem sqrt_finite_spec (m : Nat) (e : Int) (hm : m ≠ 0) :
    ∃ (r sticky : Nat) (c : Int),
      F32.sqrt (F32.finite false m e) = F32.roundDyadic false (2 * r + sticky) (c - 1)
      ∧ ((r : ℚ) * 2 ^ c) * ((r : ℚ) * 2 ^ c) ≤ (m : ℚ) * 2 ^ e
      ∧ (m : ℚ) * 2 ^ e < (((r : ℚ) + 1) * 2 ^ c) * (((r : ℚ) + 1) * 2 ^ c)
      ∧ (sticky = 0 ∨ sticky = 1)
      ∧ (sticky = 0 → ((r : ℚ) * 2 ^ c) * ((r : ℚ) * 2 ^ c) = (m : ℚ) * 2 ^ e)
      ∧ (sticky = 1 → ((r : ℚ) * 2 ^ c) * ((r : ℚ) * 2 ^ c) < (m : ℚ) * 2 ^ e)
      ∧ 2 * c + 64 ≤ e ∧ e ≤ 2 * c + 65 ∧ 1 ≤ r := by
  have key : ∀ (m' : Nat) (e' : Int), m' ≠ 0 → e' % 2 = 0 →
      (m' : ℚ) * 2 ^ e' = (m : ℚ) * 2 ^ e →
      ∃ (c : Int),
        ((isqrt (m' * 4 ^ 32) : ℚ) * 2 ^ c) * ((isqrt (m' * 4 ^ 32) : ℚ) * 2 ^ c) ≤ (m : ℚ) * 2 ^ e
        ∧ (m : ℚ) * 2 ^ e
            < (((isqrt (m' * 4 ^ 32) : ℚ) + 1) * 2 ^ c) * (((isqrt (m' * 4 ^ 32) : ℚ) + 1) * 2 ^ c)
        ∧ (isqrt (m' * 4 ^ 32) * isqrt (m' * 4 ^ 32) = m' * 4 ^ 32 →
            ((isqrt (m' * 4 ^ 32) : ℚ) * 2 ^ c) * ((isqrt (m' * 4 ^ 32) : ℚ) * 2 ^ c)
              = (m : ℚ) * 2 ^ e)
        ∧ (isqrt (m' * 4 ^ 32) * isqrt (m' * 4 ^ 32) ≠ m' * 4 ^ 32 →
            ((isqrt (m' * 4 ^ 32) : ℚ) * 2 ^ c) * ((isqrt (m' * 4 ^ 32) : ℚ) * 2 ^ c)
              < (m : ℚ) * 2 ^ e)
        ∧ c = e' / 2 - 32 ∧ 1 ≤ isqrt (m' * 4 ^ 32) := by
    intro m' e' hm' hev hval
    obtain ⟨h1, h2⟩ := isqrt_spec (m' * 4 ^ 32)
    generalize isqrt (m' * 4 ^ 32) = r at h1 h2
    have hc2 : 2 * (e' / 2 - 32) = e' - 64 := by omega
    have hsq : ∀ y : ℚ, (y * 2 ^ (e' / 2 - 32)) * (y * 2 ^ (e' / 2 - 32))
        = (y * y) * 2 ^ (e' - 64) := by
      intro y
      rw [← hc2, two_mul, two_zpow_add]
      ring
    have hN : ((m' * 4 ^ 32 : Nat) : ℚ) * 2 ^ (e' - 64) = (m : ℚ) * 2 ^ e := by
      rw [← hval, zpow_sub₀ (by norm_num)]
      push_cast
      norm_num
      ring
    have hpos := two_zpow_pos (e' - 64)
    refine ⟨e' / 2 - 32, ?_, ?_, ?_, ?_, rfl, ?_⟩
    · rw [hsq, ← hN]
      apply mul_le_mul_of_nonneg_right _ hpos.le
      exact_mod_cast h1
    · rw [hsq, ← hN]
      apply mul_lt_mul_of_pos_right _ hpos
      exact_mod_cast h2
    · intro h
      rw [hsq, ← hN]
      congr 1
      exact_mod_cast h
    · intro h
      rw [hsq, ← hN]
      apply mul_lt_mul_of_pos_right _ hpos
      have : r * r < m' * 4 ^ 32 := lt_of_le_of_ne h1 h
      exact_mod_cast this
    · by_contra hc
      have : r = 0 := by omega
      subst this
      have : 0 < m' * 4 ^ 32 := by positivity
      omega
  unfold F32.sqrt
  simp only [if_neg hm, Bool.false_eq_true, if_false]
  by_cases hev : e % 2 = 0
  · simp only [if_pos hev]
    obtain ⟨c, k1, k2, k3, k4, hc, hr⟩ := key m e hm hev rfl
    refine ⟨isqrt (m * 4 ^ 32), if isqrt (m * 4 ^ 32) * isqrt (m * 4 ^ 32) = m * 4 ^ 32 then 0 else 1,
      c, ?_, k1, k2, ?_, ?_, ?_, by omega, by omega, hr⟩
    · rw [hc]
      congr 1
      omega
    · split_ifs <;> simp
    · intro h
      by_cases h' : isqrt (m * 4 ^ 32) * isqrt (m * 4 ^ 32) = m * 4 ^ 32
      · exact k3 h'
      · rw [if_neg h'] at h
        exact absurd h (by norm_num)
    · intro h
      by_cases h' : isqrt (m * 4 ^ 32) * isqrt (m * 4 ^ 32) = m * 4 ^ 32
      · rw [if_pos h'] at h
        exact absurd h (by norm_num)
      · exact k4 h'
  · simp only [if_neg hev]
    have hev' : (e - 1) % 2 = 0 := by omega
    have hval : ((2 * m : Nat) : ℚ) * 2 ^ (e - 1) = (m : ℚ) * 2 ^ e := by
      rw [two_zpow_pred]
      push_cast
      ring
    obtain ⟨c, k1, k2, k3, k4, hc, hr⟩ := key (2 * m) (e - 1) (by omega) hev' hval
    refine ⟨isqrt (2 * m * 4 ^ 32),
      if isqrt (2 * m * 4 ^ 32) * isqrt (2 * m * 4 ^ 32) = 2 * m * 4 ^ 32 then 0 else 1,
      c, ?_, k1, k2, ?_, ?_, ?_, by omega, by omega, hr⟩
    · rw [hc]
      congr 1
      omega
    · split_ifs <;> simp
    · intro h
      by_cases h' : isqrt (2 * m * 4 ^ 32) * isqrt (2 * m * 4 ^ 32) = 2 * m * 4 ^ 32
      · exact k3 h'
      · rw [if_neg h'] at h
        exact absurd h (by norm_num)
    · intro h
      by_cases h' : isqrt (2 * m * 4 ^ 32) * isqrt (2 * m * 4 ^ 32) = 2 * m * 4 ^ 32
      · rw [if_pos h'] at h
        exact absurd h (by norm_num)
      · exact k4 h'

/-! ## Deviations, squares and their sum on integer samples -/

theorem normal_two_pow (k : Int) (h0 : -126 ≤ k) (h1 : k ≤ 127) :
    F32.Normal (2 ^ 23) (k - 23) ∧ ((2 ^ 23 : Nat) : ℚ) * 2 ^ (k - 23) = 2 ^ k := by
  refine ⟨⟨le_refl _, by norm_num, by omega, by omega⟩, ?_⟩
  have : ((2 ^ 23 : Nat) : ℚ) = 2 ^ (23 : Int) := by norm_num
  rw [this, ← two_zpow_add]
  congr 1
  ring

theorem toRat_nonpos_of_neg_sign (m : Nat) (e : Int) : (F32.finite true m e).toRat ≤ 0 := by
  rw [toRat_finite, if_pos rfl]
  have := two_zpow_pos e
  have : (0 : ℚ) ≤ (m : ℚ) * 2 ^ e := by positivity
  linarith

theorem rounded_bounds (x : ℚ) (r : F32) (hr : F32.Rounded x false r) (l : Int)
    (hl0 : -126 ≤ l) (hl1 : l ≤ 127) (hlx : (2 : ℚ) ^ l ≤ x) (N : Nat) (f : Int)
    (hN : F32.Normal N f) (hxh : x ≤ (N : ℚ) * 2 ^ f) :
    ∃ n e, r = F32.finite false n e ∧ n < 2 ^ 24 ∧ -149 ≤ e ∧ e ≤ 104
      ∧ (2 : ℚ) ^ l ≤ (n : ℚ) * 2 ^ e ∧ (n : ℚ) * 2 ^ e ≤ (N : ℚ) * 2 ^ f
      ∧ F32.Normal n e := by
  obtain ⟨hL, hLv⟩ := normal_two_pow l hl0 hl1
  obtain ⟨n, e, hfin, hle, hb1, hb2, hb3⟩ := rounded_le _ _ _ hr _ _ hN hxh
  rcases rounded_ge _ _ _ hr _ _ hL (by rw [hLv]; exact hlx) with hinf | ⟨n', e', hfin', hn', hge⟩
  · rw [hfin] at hinf
    cases hinf
  · rw [hfin] at hfin'
    injection hfin' with _ h2 h3
    subst h2 h3
    exact ⟨n, e, hfin, hb1, hb2, hb3, by rw [← hLv]; exact hge, hle, hn'⟩

theorem ofInt_one : F32.ofInt 1 = F32.finite false (2 ^ 23) (-23) := by decide

/-- Adding `+0` on the left, subtracting `+0` and dividing by 1 leave a normal number as
it is. -/
theorem normal_identities (s : Bool) (m : Nat) (e : Int) (h : F32.Normal m e) :
    F32.sub (F32.finite s m e) (F32.ofInt 0) = F32.finite s m e
    ∧ F32.add (F32.ofInt 0) (F32.finite s m e) = F32.finite s m e
    ∧ F32.div (F32.finite s m e) (F32.ofInt 1) = F32.finite s m e := by
  have hu := two_zpow_pos e
  have hm : (0 : ℚ) < m := by
    have : 0 < m := lt_of_lt_of_le (by norm_num) h.1
    exact_mod_cast this
  have hmu : (0 : ℚ) < (m : ℚ) * 2 ^ e := by positivity
  have hv : (F32.finite s m e).toRat = (if s then -((m : ℚ) * 2 ^ e) else (m : ℚ) * 2 ^ e) := by
    rw [toRat_finite]
    split_ifs <;> ring
  have hv0 : (F32.finite true 0 (-149)).toRat = 0 := by rw [toRat_finite]; simp
  have hv0' : (F32.finite false 0 (-149)).toRat = 0 := by rw [toRat_finite]; simp
  have hsign : decide ((F32.finite s m e).toRat < 0) = s := by
    rw [hv]
    cases s
    · simp only [Bool.false_eq_true, if_false]
      exact decide_eq_false (not_lt.mpr hmu.le)
    · simp only [if_true]
      exact decide_eq_true (by linarith)
  have habs : |(F32.finite s m e).toRat| = (m : ℚ) * 2 ^ e := by
    rw [hv]
    cases s
    · simp only [Bool.false_eq_true, if_false]
      exact abs_of_pos hmu
    · simp only [if_true]
      rw [abs_neg]
      exact abs_of_pos hmu
  have hne : (F32.finite s m e).toRat ≠ 0 := by
    intro hc
    rw [hc, abs_zero] at habs
    linarith
  refine ⟨?_, ?_, ?_⟩
  · have hr := (add_finite_spec s m e true 0 (-149)).2 (by rw [hv0, add_zero]; exact hne)
    rw [hv0, add_zero, hsign, habs] at hr
    exact rounded_exact _ _ _ hr m e h rfl
  · have hr := (add_finite_spec false 0 (-149) s m e).2 (by rw [hv0', zero_add]; exact hne)
    rw [hv0', zero_add, hsign, habs] at hr
    exact rounded_exact _ _ _ hr m e h rfl
  · rw [ofInt_one]
    have hm0 : m ≠ 0 := by have := h.1; omega
    have hr := (div_finite_spec s m e false (2 ^ 23) (-23) (by norm_num)).2 hm0
    simp only [Bool.xor_false] at hr
    have : ((2 ^ 23 : Nat) : ℚ) * 2 ^ (-23 : Int) = 1 := by norm_num
    rw [this, div_one] at hr
    exact rounded_exact _ _ _ hr m e h rfl

/-- The square root of a number strictly between the squares of `(m - 1/2) * 2 ^ e` and
`(m + 1/2) * 2 ^ e`, `m` a significand above `2 ^ 23`, is `m * 2 ^ e`. -/
theorem sqrt_of_near_square (m : Nat) (e : Int) (n2 : Nat) (e2 : Int) (hm0 : 2 ^ 23 + 1 ≤ m)
    (hm1 : m < 2 ^ 24) (he0 : -149 ≤ e) (he1 : e ≤ 104) (hn2 : n2 ≠ 0) (he2 : e2 ≤ 2 * e + 26)
    (hlo : (((m : ℚ) - 1 / 2) * 2 ^ e) * (((m : ℚ) - 1 / 2) * 2 ^ e) < (n2 : ℚ) * 2 ^ e2)
    (hhi : (n2 : ℚ) * 2 ^ e2 < (((m : ℚ) + 1 / 2) * 2 ^ e) * (((m : ℚ) + 1 / 2) * 2 ^ e)) :
    F32.sqrt (F32.finite false n2 e2) = F32.finite false m e := by
  obtain ⟨r, sticky, c, hsq, h1, h2, hst, hs0, hs1, hc0, hc1, hr1⟩ := sqrt_finite_spec n2 e2 hn2
  rw [hsq]
  have hp : 0 < 2 * r + sticky := by omega
  have hr := roundDyadic_rounded false (2 * r + sticky) (c - 1) hp
  have hw : ((2 * r + sticky : Nat) : ℚ) * 2 ^ (c - 1) = ((r : ℚ) + sticky / 2) * 2 ^ c := by
    rw [two_zpow_pred]
    push_cast
    ring
  rw [hw] at hr
  have hcpos := two_zpow_pos c
  have hu := two_zpow_pos e
  have hd : 0 ≤ e - c - 1 := by omega
  have hm23 : (8388608 : ℚ) + 1 ≤ m := by exact_mod_cast hm0
  -- the bounds on the grid of the integer root
  have hA : (((2 * m - 1) * 2 ^ (e - c - 1).toNat : Nat) : ℚ) * 2 ^ c
      = ((m : ℚ) - 1 / 2) * 2 ^ e := by
    have h1m : 1 ≤ 2 * m := by omega
    rw [Nat.cast_mul, Nat.cast_pow, Nat.cast_sub h1m]
    push_cast
    rw [two_pow_toNat _ hd, mul_assoc, ← two_zpow_add]
    have : e - c - 1 + c = e - 1 := by ring
    rw [this, two_zpow_pred]
    ring
  have hB : (((2 * m + 1) * 2 ^ (e - c - 1).toNat : Nat) : ℚ) * 2 ^ c
      = ((m : ℚ) + 1 / 2) * 2 ^ e := by
    push_cast
    rw [two_pow_toNat _ hd, mul_assoc, ← two_zpow_add]
    have : e - c - 1 + c = e - 1 := by ring
    rw [this, two_zpow_pred]
    ring
  generalize (2 * m - 1) * 2 ^ (e - c - 1).toNat = A at hA
  generalize (2 * m + 1) * 2 ^ (e - c - 1).toNat = B at hB
  have hr0 : (0 : ℚ) ≤ (r : ℚ) * 2 ^ c := by positivity
  have hAr : A ≤ r := by
    apply nat_le_of_quantum A r c
    apply lt_of_mul_self_lt_mul_self₀ (by positivity)
    rw [hA]
    exact lt_trans hlo h2
  have hrB : r + 1 ≤ B := by
    have : (r : ℚ) * 2 ^ c < (B : ℚ) * 2 ^ c := by
      apply lt_of_mul_self_lt_mul_self₀ (by positivity)
      rw [hB]
      exact lt_of_le_of_lt h1 hhi
    have : (r : ℚ) < B := lt_of_mul_lt_mul_right this hcpos.le
    have := Nat.cast_lt.mp this
    omega
  have hst' : (sticky : ℚ) ≤ 1 := by
    rcases hst with h | h <;> rw [h] <;> norm_num
  have hst0 : (0 : ℚ) ≤ sticky := by positivity
  have hupper : ((r : ℚ) + sticky / 2) * 2 ^ c < ((m : ℚ) + 1 / 2) * 2 ^ e := by
    rw [← hB]
    apply mul_lt_mul_of_pos_right _ hcpos
    have : ((r + 1 : Nat) : ℚ) ≤ B := by exact_mod_cast hrB
    push_cast at this
    linarith
  have hlower : ((m : ℚ) - 1 / 2) * 2 ^ e < ((r : ℚ) + sticky / 2) * 2 ^ c := by
    rw [← hA]
    apply mul_lt_mul_of_pos_right _ hcpos
    by_cases hrA : r = A
    · have hs : sticky = 1 := by
        rcases hst with h | h
        · exfalso
          have := hs0 h
          rw [hrA, hA] at this
          linarith
        · exact h
      rw [hrA, hs]
      norm_num
    · have : A + 1 ≤ r := by omega
      have : ((A + 1 : Nat) : ℚ) ≤ r := by exact_mod_cast this
      push_cast at this
      linarith
  apply rounded_near _ _ _ hr m e ⟨by omega, hm1, he0, he1⟩
  · rw [two_zpow_add, two_zpow_23]
    have h := mul_le_mul_of_nonneg_right (show (8388608 : ℚ) ≤ (m : ℚ) - 1 / 2 by linarith) hu.le
    linarith
  · rw [abs_lt, two_zpow_pred]
    constructor <;> linarith

/-- The square root of the exact square of a normal number is that number. -/
theorem sqrt_of_exact_square (m : Nat) (e : Int) (n2 : Nat) (e2 : Int) (hm : F32.Normal m e)
    (hn2 : n2 ≠ 0) (he2 : e2 ≤ 2 * e + 26)
    (hx : (n2 : ℚ) * 2 ^ e2 = ((m : ℚ) * 2 ^ e) * ((m : ℚ) * 2 ^ e)) :
    F32.sqrt (F32.finite false n2 e2) = F32.finite false m e := by
  obtain ⟨r, sticky, c, hsq, h1, h2, hst, hs0, hs1, hc0, hc1, hr1⟩ := sqrt_finite_spec n2 e2 hn2
  rw [hsq]
  have hp : 0 < 2 * r + sticky := by omega
  have hr := roundDyadic_rounded false (2 * r + sticky) (c - 1) hp
  have hw : ((2 * r + sticky : Nat) : ℚ) * 2 ^ (c - 1) = ((r : ℚ) + sticky / 2) * 2 ^ c := by
    rw [two_zpow_pred]
    push_cast
    ring
  rw [hw] at hr
  have hcpos := two_zpow_pos c
  have hd : 0 ≤ e - c := by omega
  have hD : ((m * 2 ^ (e - c).toNat : Nat) : ℚ) * 2 ^ c = (m : ℚ) * 2 ^ e :=
    scale_to_quantum m c e (by omega)
  generalize m * 2 ^ (e - c).toNat = D at hD
  rw [hx] at h1 h2 hs1
  have hDr : D ≤ r := by
    apply nat_le_of_quantum D r c
    apply lt_of_mul_self_lt_mul_self₀ (by positivity)
    rw [hD]
    exact h2
  have hrD : r ≤ D := by
    have : (r : ℚ) * 2 ^ c ≤ (D : ℚ) * 2 ^ c := by
      apply (mul_self_le_mul_self_iff (by positivity) (by positivity)).mpr
      rw [hD]
      exact h1
    have : (r : ℚ) ≤ D := le_of_mul_le_mul_right this hcpos
    exact_mod_cast this
  have hrD' : r = D := le_antisymm hrD hDr
  have hs : sticky = 0 := by
    rcases hst with h | h
    · exact h
    · exfalso
      have := hs1 h
      rw [hrD', hD] at this
      exact lt_irrefl _ this
  apply rounded_exact _ _ _ hr m e hm
  rw [hs, hrD']
  simp only [Nat.cast_zero, zero_div, add_zero]
  exact hD

/-- For a normal number `x = ± m * 2 ^ e` with `2^-63 ≤ |x| < 2^64` the chain of
operations `sqrt(((0 + (x - 0) * (x - 0)) / 1))` gives `|x|`. -/
theorem sqrt_square_chain (s : Bool) (m : Nat) (e : Int) (hm0 : 2 ^ 23 ≤ m) (hm1 : m < 2 ^ 24)
    (he0 : -86 ≤ e) (he1 : e ≤ 40) :
    F32.sqrt (F32.div (F32.add (F32.ofInt 0)
        (F32.mul (F32.sub (F32.finite s m e) (F32.ofInt 0))
          (F32.sub (F32.finite s m e) (F32.ofInt 0)))) (F32.ofInt 1))
      = F32.finite false m e := by
  have hN : F32.Normal m e := ⟨hm0, hm1, by omega, by omega⟩
  rw [(normal_identities s m e hN).1]
  have hmm : m * m ≠ 0 := by
    have : 0 < m := lt_of_lt_of_le (by norm_num) hm0
    exact (Nat.mul_pos this this).ne'
  have hr := (mul_finite_spec s m e s m e).2 hmm
  have hx : xor s s = false := by cases s <;> rfl
  rw [hx] at hr
  have hu := two_zpow_pos e
  have hm0' : (8388608 : ℚ) ≤ m := by exact_mod_cast hm0
  have hm1' : (m : ℚ) + 1 ≤ 16777216 := by
    have : m + 1 ≤ 16777216 := by omega
    exact_mod_cast this
  have huu : (2 : ℚ) ^ (2 * e) = 2 ^ e * 2 ^ e := by rw [two_mul, two_zpow_add]
  have hX : ((m : ℚ) * 2 ^ e) * ((m : ℚ) * 2 ^ e) = ((m : ℚ) * m) * 2 ^ (2 * e) := by
    rw [huu]; ring
  have h2e := two_zpow_pos (2 * e)
  have hlow : (2 : ℚ) ^ (2 * e + 46) ≤ ((m : ℚ) * 2 ^ e) * ((m : ℚ) * 2 ^ e) := by
    rw [hX, two_zpow_add, mul_comm ((2 : ℚ) ^ (2 * e))]
    apply mul_le_mul_of_nonneg_right _ h2e.le
    have : (2 : ℚ) ^ (46 : Int) = 8388608 * 8388608 := by norm_num
    rw [this]
    exact mul_le_mul hm0' hm0' (by norm_num) (by linarith)
  have hH : F32.Normal (2 ^ 24 - 1) (2 * e + 24) := ⟨by norm_num, by norm_num, by omega, by omega⟩
  have hHv : (((2 ^ 24 - 1 : Nat) : ℚ)) * 2 ^ (2 * e + 24) = (16777215 * 16777216) * 2 ^ (2 * e) := by
    rw [two_zpow_add]
    norm_num
    ring
  have hup : ((m : ℚ) * 2 ^ e) * ((m : ℚ) * 2 ^ e)
      ≤ (((2 ^ 24 - 1 : Nat) : ℚ)) * 2 ^ (2 * e + 24) := by
    rw [hHv, hX]
    apply mul_le_mul_of_nonneg_right _ h2e.le
    have hm15 : (m : ℚ) ≤ 16777215 := by linarith
    have := mul_le_mul hm15 hm15 (by linarith) (by norm_num)
    linarith
  obtain ⟨n2, e2, hfin, hb1, hb2, hb3, hge, hle, hN2⟩ := rounded_bounds _ _ hr (2 * e + 46)
    (by omega) (by omega) hlow _ _ hH hup
  rw [hfin, (normal_identities false n2 e2 hN2).2.1, (normal_identities false n2 e2 hN2).2.2]
  have hn2 : n2 ≠ 0 := by have := hN2.1; omega
  have he2 : e2 ≤ 2 * e + 26 := by
    by_contra hc
    rw [hHv] at hle
    have h23 : (2 : ℚ) ^ (23 : Int) ≤ n2 := by
      rw [two_zpow_23]
      exact_mod_cast hN2.1
    have h3 := two_zpow_pos e2
    have h4 : (2 : ℚ) ^ (23 : Int) * 2 ^ e2 ≤ (n2 : ℚ) * 2 ^ e2 :=
      mul_le_mul_of_nonneg_right h23 h3.le
    rw [← two_zpow_add] at h4
    have h5 : (2 : ℚ) ^ (2 * e + 48) < 2 ^ (23 + e2) := two_zpow_lt (by omega)
    have h6 : (2 : ℚ) ^ (2 * e + 48) = (16777216 * 16777216) * 2 ^ (2 * e) := by
      rw [two_zpow_add]
      norm_num
      ring
    rw [h6] at h5
    linarith
  by_cases hpow : m = 2 ^ 23
  · -- the square of a power of two is exact
    have hsqN : F32.Normal (2 ^ 23) (2 * e + 23) := ⟨le_refl _, by norm_num, by omega, by omega⟩
    have hval : ((m : ℚ) * 2 ^ e) * ((m : ℚ) * 2 ^ e) = ((2 ^ 23 : Nat) : ℚ) * 2 ^ (2 * e + 23) := by
      rw [hX, hpow, two_zpow_add]
      push_cast
      norm_num
      ring
    have := rounded_exact _ _ _ hr _ _ hsqN hval
    rw [hfin] at this
    injection this with _ h2 h3
    apply sqrt_of_exact_square m e n2 e2 hN hn2 he2
    rw [h2, h3, hval]
  · have hm23 : 2 ^ 23 + 1 ≤ m := by omega
    have hm23' : (8388608 : ℚ) + 1 ≤ m := by exact_mod_cast hm23
    -- the rounding error of the square
    have herr : |(n2 : ℚ) * 2 ^ e2 - ((m : ℚ) * 2 ^ e) * ((m : ℚ) * 2 ^ e)|
        ≤ 2 ^ (2 * e + 23) := by
      have e23 : 2 * e + 23 = 2 * e + 24 - 1 := by ring
      rw [e23]
      apply rounded_err _ _ _ hr (2 * e + 24) (by omega) _ n2 e2 hfin
      rw [hX]
      have : (2 : ℚ) ^ (2 * e + 24 + 24) = (16777216 * 16777216) * 2 ^ (2 * e) := by
        rw [two_zpow_add, two_zpow_add]
        norm_num
        ring
      rw [this]
      apply mul_lt_mul_of_pos_right _ h2e
      have hm15 : (m : ℚ) ≤ 16777215 := by linarith
      have := mul_le_mul hm15 hm15 (by linarith) (by norm_num)
      linarith
    have h23 : (2 : ℚ) ^ (2 * e + 23) = 8388608 * (2 ^ e * 2 ^ e) := by
      rw [two_zpow_add, huu]
      norm_num
      ring
    rw [abs_le, h23] at herr
    have huu0 : (0 : ℚ) < 2 ^ e * 2 ^ e := by positivity
    have hgap : 0 < ((m : ℚ) - 1 / 4 - 8388608) * (2 ^ e * 2 ^ e) :=
      mul_pos (by linarith) huu0
    have hm0 : 0 < ((m : ℚ) + 1 / 4) * (2 ^ e * 2 ^ e) := mul_pos (by linarith) huu0
    have e0 : ((m : ℚ) * 2 ^ e) * ((m : ℚ) * 2 ^ e) = (m : ℚ) * m * (2 ^ e * 2 ^ e) := by ring
    have e1 : (((m : ℚ) - 1 / 2) * 2 ^ e) * (((m : ℚ) - 1 / 2) * 2 ^ e)
        = (m : ℚ) * m * (2 ^ e * 2 ^ e) - ((m : ℚ) - 1 / 4) * (2 ^ e * 2 ^ e) := by ring
    have e2' : (((m : ℚ) + 1 / 2) * 2 ^ e) * (((m : ℚ) + 1 / 2) * 2 ^ e)
        = (m : ℚ) * m * (2 ^ e * 2 ^ e) + ((m : ℚ) + 1 / 4) * (2 ^ e * 2 ^ e) := by ring
    rw [e0] at herr
    apply sqrt_of_near_square m e n2 e2 hm23 hm1 (by omega) (by omega) hn2 he2
    · rw [e1]
      generalize (2 : ℚ) ^ e * 2 ^ e = U at herr hgap hm0
      generalize (m : ℚ) * m * U = P at herr
      linarith [herr.1]
    · rw [e2']
      generalize (2 : ℚ) ^ e * 2 ^ e = U at herr hgap hm0
      generalize (m : ℚ) * m * U = P at herr
      linarith [herr.2]

/-! ## The values returned in binary32: claims C15, C19 and C20 -/

/-! ### C15 -/

/-- A nonzero `int` of magnitude below `2 ^ 24` converts to a float whose square neither
overflows nor underflows, and the absolute value of the float is the conversion of the
absolute value of the `int`. -/
theorem ofInt_inSquareRange (k : Int) (hk : k ≠ 0) (hlt : |k| < 2 ^ 24) :
    F32.inSquareRange (F32.ofInt k) = true ∧ F32.abs (F32.ofInt k) = F32.ofInt |k| := by
  obtain ⟨N, f, hN, hf0, hf1, hval, hof⟩ := ofInt_spec k hk hlt
  rw [hof]
  constructor
  · simp only [F32.inSquareRange, Bool.and_eq_true, decide_eq_true_eq]
    exact ⟨⟨⟨hN.1, hN.2.1⟩, by omega⟩, by omega⟩
  · show F32.finite false N f = _
    symm
    have h0 : 0 < (|k|).natAbs := Int.natAbs_pos.mpr (abs_ne_zero.mpr hk)
    have hr := roundDyadic_rounded (decide (|k| < 0)) (|k|).natAbs 0 h0
    have hd : decide (|k| < 0) = false := decide_eq_false (not_lt.mpr (abs_nonneg k))
    rw [hd] at hr
    unfold F32.ofInt
    rw [hd]
    apply rounded_exact _ _ _ hr N f hN
    rw [hval, zpow_zero, mul_one, Nat.cast_natAbs, Int.cast_abs, Int.cast_abs, abs_abs]

/-- C15 as stated fails in binary32.  With `T = 1` and the single float sample `2^100`
the square overflows and `getSD` returns `+infinity`, not `|s| = 2^100`; with the single
float sample `2^-100` the square underflows and `getSD` returns 0. -/
theorem getSD_single_sample_counterexample :
    (dimsOf 1 1 1 1 (4 - 1) = 1
      ∧ (floatEncoding ieee32).nonzero (bufferOf [twoPow100] (F32.ofInt 0) 0) = true
      ∧ getSD ieee32 (floatEncoding ieee32) (bufferOf [twoPow100] (F32.ofInt 0)) 1
          (dimsOf 1 1 1 1) 4 0 = F32.inf false
      ∧ getSD ieee32 (floatEncoding ieee32) (bufferOf [twoPow100] (F32.ofInt 0)) 1
          (dimsOf 1 1 1 1) 4 0 ≠ twoPow100)
    ∧ ((floatEncoding ieee32).nonzero (bufferOf [twoPowNeg100] (F32.ofInt 0) 0) = true
      ∧ getSD ieee32 (floatEncoding ieee32) (bufferOf [twoPowNeg100] (F32.ofInt 0)) 1
          (dimsOf 1 1 1 1) 4 0 = F32.ofInt 0
      ∧ getSD ieee32 (floatEncoding ieee32) (bufferOf [twoPowNeg100] (F32.ofInt 0)) 1
          (dimsOf 1 1 1 1) 4 0 ≠ twoPowNeg100) := by
  decide

/-- C15, amended: for `T = 1` and a voxel whose single sample `s = a[z]` is nonzero and,
as a float, a normal number with `2^-63 ≤ |s| < 2^64` (so that `s * s` neither overflows nor
underflows), the mean is short-circuited to 0 (`getMean` returns 0), the counter is 1, and
`getSD` returns `sqrt((0 + (s - 0) * (s - 0)) / 1)` evaluated in binary32, which is `|s|`,
not 0.  Every nonzero sample of the 8-bit and 16-bit encodings (every nonzero `int` of
magnitude below `2^24`) satisfies the range condition, and `|s|` is then the float of the
integer `|s|`. -/
theorem getSD_single_sample_abs {S : Type} (enc : Encoding F32 S) (a : Int → S)
    (NumberVoxels : Int) (size_Dim : Int → Int) (Num_of_Dims : Int) (z : Int)
    (hT : size_Dim (Num_of_Dims - 1) = 1) (hz : enc.nonzero (a z) = true)
    (hrange : F32.inSquareRange (enc.toFloat (a z)) = true) :
    getMean ieee32 enc a NumberVoxels size_Dim Num_of_Dims z = F32.ofInt 0
    ∧ getSDDivisor ieee32 enc a NumberVoxels size_Dim Num_of_Dims z = 1
    ∧ getSD ieee32 enc a NumberVoxels size_Dim Num_of_Dims z
        = F32.sqrt (F32.div (F32.add (F32.ofInt 0)
            (F32.mul (F32.sub (enc.toFloat (a z)) (F32.ofInt 0))
              (F32.sub (enc.toFloat (a z)) (F32.ofInt 0)))) (F32.ofInt 1))
    ∧ getSD ieee32 enc a NumberVoxels size_Dim Num_of_Dims z = F32.abs (enc.toFloat (a z))
    ∧ (∀ k : Int, k ≠ 0 → |k| < 2 ^ 24 →
        F32.inSquareRange (F32.ofInt k) = true ∧ F32.abs (F32.ofInt k) = F32.ofInt |k|) := by
  have hT' : size_Dim (Num_of_Dims - 1) = ((1 : Nat) : Int) := by simpa using hT
  have hp := meanPass_nonzero ieee32 enc a NumberVoxels size_Dim Num_of_Dims z 1 hT' hz
  have hsd : getSD ieee32 enc a NumberVoxels size_Dim Num_of_Dims z
      = F32.sqrt (F32.div (F32.add (F32.ofInt 0)
          (F32.mul (F32.sub (enc.toFloat (a z)) (F32.ofInt 0))
            (F32.sub (enc.toFloat (a z)) (F32.ofInt 0)))) (F32.ofInt 1)) :=
    getSD_single_sample_eq ieee32 enc a NumberVoxels size_Dim Num_of_Dims z hT hz
  refine ⟨?_, ?_, hsd, ?_, ofInt_inSquareRange⟩
  · unfold getMean
    rw [hp]
    simp [finishMean]
    rfl
  · unfold getSDDivisor
    rw [hp]
    simp
  · rw [hsd]
    generalize enc.toFloat (a z) = x at hrange
    cases x with
    | nan => simp [F32.inSquareRange] at hrange
    | inf s => simp [F32.inSquareRange] at hrange
    | finite s m e =>
      simp only [F32.inSquareRange, Bool.and_eq_true, decide_eq_true_eq] at hrange
      obtain ⟨⟨⟨h1, h2⟩, h3⟩, h4⟩ := hrange
      exact sqrt_square_chain s m e h1 h2 h3 h4

/-- Witness for the amended C15: one voxel, `T = 1`; the `short int` sample -5 gives 5, the
float sample `-1.5000002` gives `1.5000002`. -/
theorem getSD_single_sample_abs_witness :
    (dimsOf 1 1 1 1 (4 - 1) = 1
      ∧ (intEncoding ieee32).nonzero (bufferOf [(-5 : Int)] 0 0) = true
      ∧ F32.inSquareRange ((intEncoding ieee32).toFloat (bufferOf [(-5 : Int)] 0 0)) = true)
    ∧ (getMean ieee32 (intEncoding ieee32) (bufferOf [(-5 : Int)] 0) 1 (dimsOf 1 1 1 1) 4 0 = F32.ofInt 0
      ∧ getSDDivisor ieee32 (intEncoding ieee32) (bufferOf [(-5 : Int)] 0) 1 (dimsOf 1 1 1 1) 4 0 = 1
      ∧ getSD ieee32 (intEncoding ieee32) (bufferOf [(-5 : Int)] 0) 1 (dimsOf 1 1 1 1) 4 0
          = F32.sqrt (F32.div (F32.add (F32.ofInt 0)
              (F32.mul (F32.sub ((intEncoding ieee32).toFloat (bufferOf [(-5 : Int)] 0 0)) (F32.ofInt 0))
                (F32.sub ((intEncoding ieee32).toFloat (bufferOf [(-5 : Int)] 0 0)) (F32.ofInt 0))))
              (F32.ofInt 1))
      ∧ getSD ieee32 (intEncoding ieee32) (bufferOf [(-5 : Int)] 0) 1 (dimsOf 1 1 1 1) 4 0
          = F32.abs ((intEncoding ieee32).toFloat (bufferOf [(-5 : Int)] 0 0))
      ∧ (∀ k : Int, k ≠ 0 → |k| < 2 ^ 24 →
          F32.inSquareRange (F32.ofInt k) = true ∧ F32.abs (F32.ofInt k) = F32.ofInt |k|))
    ∧ F32.abs ((intEncoding ieee32).toFloat (bufferOf [(-5 : Int)] 0 0)) = F32.ofInt 5
    ∧ getSD ieee32 (floatEncoding ieee32) (bufferOf [F32.negate oneAndAHalf] (F32.ofInt 0)) 1
        (dimsOf 1 1 1 1) 4 0 = oneAndAHalf :=
  ⟨⟨by decide, by decide, by decide⟩,
   getSD_single_sample_abs (intEncoding ieee32) (bufferOf [(-5 : Int)] 0) 1 (dimsOf 1 1 1 1) 4 0
     (by decide) (by decide) (by decide),
   by decide, by decide⟩

/-! ### C19 -/

end FMRI
